import Mathlib

/-!
Verification of the Tygent workflow core of this repository: the dependency
graph builder (`TygentScheduler`), the parallel workflow driver
(`runPromptWithTools`), and the sequential fallback executor
(`runPromptSequentially`), together with the execution-event log they produce.

The TypeScript sources are embedded shallowly:

* asynchronous calls become explicit state passing over `ExecState` / `SeqState`;
* the inference client is a script (a list) of responses consumed in order, so
  an "invocation count" is the number of consumed entries;
* wall-clock time is a logical clock: every `Date.now()` observation returns
  the current clock value and advances it, so later observations are strictly
  larger, which is exactly the ordering information the temporal claims need;
* a fallible operation returns `Except`.

The classes `DAG` / `Scheduler` imported from the external `tygent` package are
not part of the source tree; where their behavior decides a claim they are
modelled from the specification (each such definition carries a doc comment
starting with "Modelled from the spec:").
-/

namespace Tygent

/-- Kind tag of an execution event (`'llm' | 'tool'` in the source). -/
inductive EventType where
  | llm
  | tool
deriving DecidableEq, Repr

/-- One timestamped span of the event log (interface `ExecutionEvent` in
tygentScheduler.ts). The source field `end` is a Lean keyword and is embedded
as `endTime`. -/
structure ExecutionEvent where
  type : EventType
  name : String
  context : String
  start : Nat
  endTime : Nat
deriving DecidableEq, Repr

/-- The cancellation signal passed to an operation: either the signal threaded
from the top-level call, or a fresh `AbortSignal.timeout(ms)` created at the
dispatch site. -/
inductive Signal where
  | top
  | timeout (ms : Nat)
deriving DecidableEq, Repr

/-- A record of one dispatched unit of work (an inference call or a tool
execution) together with the signal it received; used to state the
cancellation-threading claims. -/
structure OpRecord where
  name : String
  signal : Signal
deriving DecidableEq, Repr

/-- A content part; only the `text` property is relevant to the embedded code
paths (`p.text ?? ''`). -/
structure Part where
  text : Option String := none
deriving DecidableEq, Repr

/-- A structured tool-invocation request inside a model response
(`FunctionCall` of @google/genai): optional name, optional call id, argument
mapping (embedded as a string-valued association list). -/
structure FunctionCall where
  name : Option String := none
  id : Option String := none
  args : List (String × String) := []
deriving DecidableEq, Repr

/-- A model response as the embedded code observes it: the extractable text
(result of `getResponseText`) and the requested tool invocations (result of
`getFunctionCalls`). -/
structure Response where
  text : Option String := none
  functionCalls : List FunctionCall := []
deriving DecidableEq, Repr

/-- Extraction of the response text (`getResponseText`), `none` when the
response has no extractable text. -/
def getResponseText (r : Response) : Option String := r.text

/-- Extraction of the requested tool invocations (`getFunctionCalls`); the
driver applies `?? []`, which the embedding bakes into the field default. -/
def getFunctionCalls (r : Response) : List FunctionCall := r.functionCalls

/-- JavaScript `String(resp)` on a plain response object. -/
def jsToString (_ : Response) : String := "[object Object]"

/-- Result of a tool execution (`ToolResult`): a display summary and the
content handed back to the model. It has no `responseParts` property. -/
structure ToolResult where
  returnDisplay : String := ""
  llmContent : List Part := []
deriving DecidableEq, Repr

deriving instance DecidableEq for Except

/-- An executable tool of the registry; `outcome` is what `tool.execute`
produces when awaited (a result or a raised error). -/
structure Tool where
  name : String
  outcome : Except String ToolResult
deriving DecidableEq, Repr

/-- The tool registry, a lookup from tool name to tool. -/
def ToolRegistry := List Tool

/-- Lookup of a tool by name (`toolRegistry.getTool(request.name)`). -/
def getTool (reg : ToolRegistry) (n : String) : Option Tool :=
  reg.find? (fun t => t.name = n)

/-- The `ToolCallRequestInfo` structure built by both drivers from a
`FunctionCall`. -/
structure ToolCallRequestInfo where
  callId : String
  name : String
  args : List (String × String)
  isClientInitiated : Bool := false
deriving DecidableEq, Repr

/-- JavaScript `JSON.stringify` on the embedded argument mapping. -/
def jsonStringify (args : List (String × String)) : String :=
  "\x7b" ++ String.intercalate ","
      (args.map (fun kv => "\"" ++ kv.1 ++ "\":\"" ++ kv.2 ++ "\"")) ++ "\x7d"

/-- Builds the `ToolCallRequestInfo` from a `FunctionCall` exactly as both
drivers do: `callId: fc.id ?? fc.name-Date.now()`, `name: fc.name ??
'unknown_tool'`. The `now` argument is the clock value at the construction
site (used only when `fc.id` is absent). -/
def mkRequest (now : Nat) (fc : FunctionCall) : ToolCallRequestInfo :=
  { callId := fc.id.getD ((fc.name.getD "undefined") ++ "-" ++ toString now),
    name := fc.name.getD "unknown_tool",
    args := fc.args,
    isClientInitiated := false }

/-- Kind of a DAG node. -/
inductive NodeKind where
  | llmK
  | toolK
deriving DecidableEq, Repr

/-- A node of the workflow DAG. The unit of work of the TypeScript node is a
closure; its captured data (prompt, or tool name, arguments and the tool's
captured execution outcome) is embedded as fields. -/
structure DAGNode where
  name : String
  deps : List String
  kind : NodeKind
  prompt : String := ""
  toolName : String := ""
  toolArgs : List (String × String) := []
  toolOutcome : Except String ToolResult := Except.error ""
deriving DecidableEq, Repr

/-- The dependency graph: a name and the nodes in insertion order. -/
structure DAG where
  dagName : String
  nodes : List DAGNode
deriving DecidableEq, Repr

/-- Build-time errors of the graph builder (spec section 7 taxonomy), plus the
literal message thrown by `addToolCall` for a missing tool. -/
inductive BuildError where
  | CycleDetected
  | UnknownDependency
  | DuplicateNode
  | ToolNotFound (tool : String)
deriving DecidableEq, Repr

/-- Rendering of a build error as the thrown message; `ToolNotFound` matches
the literal template of tygentScheduler.ts. -/
def BuildError.message : BuildError → String
  | .CycleDetected => "CycleDetected"
  | .UnknownDependency => "UnknownDependency"
  | .DuplicateNode => "DuplicateNode"
  | .ToolNotFound t => "Tool " ++ t ++ " not found"

/-- Modelled from the spec: `DAG.addNode` of the external tygent package is not
under src/. Per the spec, a dependency set that would create a cycle (a node
may not depend on itself) fails with `CycleDetected`; a referenced identifier
not yet present fails with `UnknownDependency`, before the node is registered;
node identity is unique within a graph (spec section 3), and since the spec
names no error for a duplicate identifier a distinct `DuplicateNode` value is
used for that rejection. -/
def DAG.addNode (d : DAG) (n : DAGNode) : Except BuildError DAG :=
  if n.name ∈ n.deps then Except.error BuildError.CycleDetected
  else if n.deps.all (fun dep => d.nodes.any (fun m => m.name = dep)) then
    if d.nodes.any (fun m => m.name = n.name) then Except.error BuildError.DuplicateNode
    else Except.ok ⟨d.dagName, d.nodes ++ [n]⟩
  else Except.error BuildError.UnknownDependency

/-- The graph builder (`TygentScheduler` of tygentScheduler.ts): the growing
DAG and the monotonic counter used for `llm_<k>` identifiers. -/
structure TygentScheduler where
  dag : DAG
  nodeCount : Nat
deriving DecidableEq, Repr

/-- A freshly constructed scheduler (`new TygentScheduler(...)`). -/
def TygentScheduler.init : TygentScheduler :=
  ⟨⟨"gemini_workflow", []⟩, 0⟩

/-- The builder operation `addLLMCall(prompt, dependsOn)`. The name
`llm_<nodeCount>` is computed with a post-increment before `dag.addNode` can
throw, so the counter advances even on failure while the graph itself is left
unchanged; the result pairs the returned name (or thrown error) with the
builder state after the call. -/
def TygentScheduler.addLLMCall (s : TygentScheduler) (prompt : String)
    (dependsOn : List String) : Except BuildError String × TygentScheduler :=
  let name := "llm_" ++ toString s.nodeCount
  let s1 : TygentScheduler := { s with nodeCount := s.nodeCount + 1 }
  let node : DAGNode :=
    { name := name, deps := dependsOn, kind := NodeKind.llmK, prompt := prompt }
  match s1.dag.addNode node with
  | Except.error e => (Except.error e, s1)
  | Except.ok d => (Except.ok name, { s1 with dag := d })

/-- The builder operation `addToolCall(request, dependsOn)`: the tool is looked
up in the registry at build time and its execution outcome is captured into
the node's unit of work; a missing tool throws `Tool <name> not found` before
any node is created. -/
def TygentScheduler.addToolCall (s : TygentScheduler) (registry : ToolRegistry)
    (request : ToolCallRequestInfo) (dependsOn : List String) :
    Except BuildError String × TygentScheduler :=
  let name := "tool_" ++ request.callId
  match getTool registry request.name with
  | none => (Except.error (BuildError.ToolNotFound request.name), s)
  | some tool =>
      let node : DAGNode :=
        { name := name, deps := dependsOn, kind := NodeKind.toolK,
          toolName := request.name, toolArgs := request.args,
          toolOutcome := tool.outcome }
      match s.dag.addNode node with
      | Except.error e => (Except.error e, s)
      | Except.ok d => (Except.ok name, { s with dag := d })

/-- The execution-time state threaded through the embedded asynchronous code:
the logical clock, the inference client's remaining scripted responses, the
number of inference invocations made so far, the event log, and the record of
dispatched operations with the signals they received. -/
structure ExecState where
  clock : Nat
  script : List (Except String Response)
  inferCalls : Nat
  events : List ExecutionEvent
  calls : List OpRecord
deriving Repr

/-- Initial state for a run against a scripted inference client. -/
def initState (script : List (Except String Response)) : ExecState :=
  ⟨0, script, 0, [], []⟩

/-- One invocation of the inference client: consumes the next scripted
response (an exhausted script behaves as a client failure) and counts the
invocation. -/
def takeResponse (st : ExecState) : Except String Response × ExecState :=
  match st.script with
  | [] => (Except.error "no response", { st with inferCalls := st.inferCalls + 1 })
  | r :: rest => (r, { st with script := rest, inferCalls := st.inferCalls + 1 })

/-- One `generateContent` round trip with its bracketing `Date.now()` reads
and the event/record bookkeeping shared by the driver's direct calls and the
scheduler's LLM node: the event is appended in a `finally` block, hence on
both the success and the failure path. -/
def callGenerate (sig : Signal) (nodeName ctx : String) (st : ExecState) :
    Except String Response × ExecState :=
  let startTime := st.clock
  let st1 : ExecState := { st with clock := st.clock + 1 }
  let (res, st2) := takeResponse st1
  let endTime := st2.clock
  let st3 : ExecState := { st2 with clock := st2.clock + 1 }
  (res, { st3 with
    events := st3.events ++ [⟨EventType.llm, nodeName, ctx, startTime, endTime⟩],
    calls := st3.calls ++ [⟨nodeName, sig⟩] })

/-- Execution of a scheduler LLM node: `generateContent` under a fresh
`AbortSignal.timeout(300000)`, context = the captured prompt. -/
def execLLMNode (n : DAGNode) (st : ExecState) : Except String Response × ExecState :=
  callGenerate (Signal.timeout 300000) n.name n.prompt st

/-- Execution of a scheduler tool node: the captured tool runs under a fresh
`AbortSignal.timeout(300000)`; the `finally` block appends exactly one event
with context `<tool name> <JSON arguments>` whether the tool succeeded or
raised. -/
def execToolNode (n : DAGNode) (st : ExecState) : Except String ToolResult × ExecState :=
  let startTime := st.clock
  let st1 : ExecState := { st with clock := st.clock + 1 }
  let result := n.toolOutcome
  let endTime := st1.clock
  let st2 : ExecState := { st1 with clock := st1.clock + 1 }
  (result, { st2 with
    events := st2.events ++
      [⟨EventType.tool, n.name, n.toolName ++ " " ++ jsonStringify n.toolArgs,
        startTime, endTime⟩],
    calls := st2.calls ++ [⟨n.name, Signal.timeout 300000⟩] })

/-- The value a node contributes to the scheduler's result mapping. -/
inductive NodeOutput where
  | resp (r : Response)
  | toolRes (t : ToolResult)
deriving Repr

/-- Execution of one node, dispatching on its kind. -/
def execNode (n : DAGNode) (st : ExecState) : Except String NodeOutput × ExecState :=
  match n.kind with
  | NodeKind.llmK =>
      ((execLLMNode n st).1.map NodeOutput.resp, (execLLMNode n st).2)
  | NodeKind.toolK =>
      ((execToolNode n st).1.map NodeOutput.toolRes, (execToolNode n st).2)

/-- Modelled from the spec: `Scheduler.executeParallel` of the external tygent
package is not under src/. Per the spec it is a parallel Kahn traversal in
which a node starts only after its dependencies completed and the first
failure aborts the run. Because `DAG.addNode` only admits dependencies on
already-present nodes, insertion order is one valid topological order, and the
traversal is embedded as execution in insertion order; overlap of concurrent
node executions is not modelled. -/
def executeNodes : List DAGNode → List (String × NodeOutput) → ExecState →
    Except String (List (String × NodeOutput)) × ExecState
  | [], acc, st => (Except.ok acc, st)
  | n :: rest, acc, st =>
      match execNode n st with
      | (Except.error e, st1) => (Except.error e, st1)
      | (Except.ok out, st1) => executeNodes rest (acc ++ [(n.name, out)]) st1

/-- The scheduler's `run()`: execute the whole DAG and return the mapping from
node identifier to result. -/
def TygentScheduler.run (s : TygentScheduler) (st : ExecState) :
    Except String (List (String × NodeOutput)) × ExecState :=
  executeNodes s.dag.nodes [] st

/-- The driver's loop registering one tool node per requested invocation
(workflowExecutor.ts lines 95-105): builds the scheduler, collecting the
returned node identifiers; a build error is thrown synchronously out of the
driver. -/
def addToolCalls (registry : ToolRegistry) (now : Nat) :
    List FunctionCall → TygentScheduler → List String →
    Except BuildError (List String × TygentScheduler)
  | [], s, acc => Except.ok (acc, s)
  | fc :: rest, s, acc =>
      match s.addToolCall registry (mkRequest now fc) [] with
      | (Except.error e, _) => Except.error e
      | (Except.ok name, s1) => addToolCalls registry now rest s1 (acc ++ [name])

/-- The driver reads `toolResults[nodeName].responseParts`; scheduler tool
nodes return `ToolResult` values, which carry `llmContent` and `returnDisplay`
but no `responseParts` property, so this duck-typed access always yields
undefined. -/
def getResponseParts (_ : Option NodeOutput) : Option (List PartU) := none

/-- An entry of a `PartListUnion`: tool responses may interleave raw strings
with structured parts. -/
inductive PartU where
  | str (s : String)
  | part (p : Part)
deriving DecidableEq, Repr

/-- The flattening of retrieved response parts into `toolParts`, shared by
both drivers: a string entry becomes a `{ text }` part, a structured part is
pushed as is. -/
def flattenParts : List PartU → List Part
  | [] => []
  | PartU.str s :: rest => { text := some s } :: flattenParts rest
  | PartU.part p :: rest => p :: flattenParts rest

/-- The driver's collection of `toolParts` over the returned node names
(workflowExecutor.ts lines 108-120). -/
def gatherToolParts (results : List (String × NodeOutput)) :
    List String → List Part
  | [] => []
  | nm :: rest =>
      match getResponseParts ((results.find? (fun p => p.1 = nm)).map (fun p => p.2)) with
      | some ps => flattenParts ps ++ gatherToolParts results rest
      | none => gatherToolParts results rest

/-- The driver's follow-up inference call (workflowExecutor.ts lines 126-164):
one direct `generateContent` round trip under the threaded signal, event
`llm_0`, returning the final response's text or, lacking text,
`String(resp)`. -/
def finishFollowUp (ctx : String) (st2 : ExecState) :
    Except String String × ExecState :=
  match callGenerate Signal.top "llm_0" ctx st2 with
  | (Except.error e, st3) => (Except.error e, st3)
  | (Except.ok finalResp, st3) =>
      (Except.ok ((getResponseText finalResp).getD (jsToString finalResp)), st3)

/-- The driver's tool phase (workflowExecutor.ts lines 93-164): registers one
tool node per requested invocation on a fresh scheduler (a build error is
thrown synchronously), runs the scheduler, collects the `responseParts` of the
results into the follow-up context (first 100 characters of the joined text),
and issues the follow-up inference call. -/
def runToolsPhase (registry : ToolRegistry) (functionCalls : List FunctionCall)
    (st1 : ExecState) : Except String String × ExecState :=
  match addToolCalls registry st1.clock functionCalls TygentScheduler.init [] with
  | Except.error e => (Except.error e.message, st1)
  | Except.ok (toolNodeNames, scheduler) =>
      match scheduler.run st1 with
      | (Except.error e, st2) => (Except.error e, st2)
      | (Except.ok toolResults, st2) =>
          let toolParts := gatherToolParts toolResults toolNodeNames
          finishFollowUp
            ((String.intercalate " " (toolParts.map (fun p => p.text.getD ""))).take 100)
            st2

/-- The Workflow Driver `runPromptWithTools` (workflowExecutor.ts): one direct
discovery inference call under the threaded signal (event `llm_plan`); if it
requests no tools its text (or, lacking text, `String(resp)`) is returned
after that single call; otherwise the tool phase and the follow-up call run.
The body is factored into the named phases above for proof modularity. -/
def runPromptWithTools (registry : ToolRegistry) (prompt : String)
    (st : ExecState) : Except String String × ExecState :=
  match callGenerate Signal.top "llm_plan" prompt st with
  | (Except.error e, st1) => (Except.error e, st1)
  | (Except.ok initialResp, st1) =>
      if (getFunctionCalls initialResp).isEmpty then
        (Except.ok ((getResponseText initialResp).getD (jsToString initialResp)), st1)
      else
        runToolsPhase registry (getFunctionCalls initialResp) st1

/-- One round of the streamed chat used by the sequential fallback: the chunks
the response stream yields for one `sendMessageStream` call. -/
structure SeqRound where
  chunks : List Response
deriving DecidableEq, Repr

/-- The text a round contributes to the accumulated output (`output += text`
for every chunk with text). -/
def roundText (r : SeqRound) : String :=
  String.join (r.chunks.filterMap getResponseText)

/-- The tool invocations a round requests (`functionCalls.push(...)` over the
chunks). -/
def roundCalls (r : SeqRound) : List FunctionCall :=
  (r.chunks.map getFunctionCalls).flatten

/-- The context string of a sequential inference event:
`currentMessages[0].parts.map(p => p.text ?? '').join(' ')`. -/
def partsText (msgs : List Part) : String :=
  String.intercalate " " (msgs.map (fun p => p.text.getD ""))

/-- Execution-time state of the sequential fallback executor. -/
structure SeqState where
  clock : Nat
  events : List ExecutionEvent
  calls : List OpRecord
  llmCount : Nat
deriving Repr

/-- The response of `executeToolCall`, which (unlike the scheduler's raw
`ToolResult`) does carry `responseParts`. -/
structure ToolCallResponse where
  responseParts : Option (List PartU)
deriving DecidableEq, Repr

/-- Modelled from the spec: `executeToolCall`
(core/nonInteractiveToolExecutor.ts) is not under src/. Per the spec's
external-interface contract, it looks the tool up in the registry and executes
it, and the result carries a structured payload usable as follow-up inference
input; failures surface as an error response rather than a thrown exception,
so a missing tool or a tool error yields a response without parts. -/
def executeToolCall (registry : ToolRegistry) (request : ToolCallRequestInfo) :
    ToolCallResponse :=
  match getTool registry request.name with
  | none => ⟨none⟩
  | some tool =>
      match tool.outcome with
      | Except.ok res => ⟨some (res.llmContent.map PartU.part)⟩
      | Except.error _ => ⟨none⟩

/-- The collection of a tool response's parts into `toolParts`
(`if (result.responseParts) ... push`). -/
def respParts (r : ToolCallResponse) : List Part :=
  match r.responseParts with
  | some ps => flattenParts ps
  | none => []

/-- The sequential executor's per-round tool loop (workflowExecutor.ts lines
216-242): each requested tool runs to completion under the threaded signal
before the next starts; one `tool_<fc.name>` event with context
`JSON.stringify(request.args)` is appended after each execution and the
response parts are collected. The `Date.now()` inside the `callId` fallback
template is embedded as the current clock value without a tick of its own. -/
def seqExecTools (registry : ToolRegistry) :
    List FunctionCall → List Part → SeqState → List Part × SeqState
  | [], acc, st => (acc, st)
  | fc :: rest, acc, st =>
      let request := mkRequest st.clock fc
      let toolStart := st.clock
      let st1 : SeqState := { st with clock := st.clock + 1 }
      let result := executeToolCall registry request
      let toolEnd := st1.clock
      let st2 : SeqState := { st1 with clock := st1.clock + 1 }
      let st3 : SeqState :=
        { st2 with
          events := st2.events ++
            [⟨EventType.tool, "tool_" ++ (fc.name.getD "undefined"),
              jsonStringify request.args, toolStart, toolEnd⟩],
          calls := st2.calls ++
            [⟨"tool_" ++ (fc.name.getD "undefined"), Signal.top⟩] }
      seqExecTools registry rest (acc ++ respParts result) st3

/-- The sequential fallback loop (workflowExecutor.ts lines 183-245), embedded
by recursion over the scripted rounds (the real `while (true)` terminates only
through the client's responses; an exhausted script behaves as a stream
failure). Per round: the inference stream is awaited under the threaded
signal; an aborted signal throws from inside the chunk loop, before the
round's event is appended; otherwise text is accumulated, one `llm_<k>` event
with context = the input message text is appended, and either the accumulated
output is returned (no tool requests) or the tools run sequentially and their
collected parts become the next round's input message. -/
def seqLoop (registry : ToolRegistry) (aborted : Bool) :
    List SeqRound → List Part → String → SeqState → Except String String × SeqState
  | [], _, _, st =>
      (Except.error "no response",
        { st with
          llmCount := st.llmCount + 1, clock := st.clock + 1,
          calls := st.calls ++ [⟨"llm_" ++ toString st.llmCount, Signal.top⟩] })
  | round :: rest, msgs, out, st =>
      let llmName := "llm_" ++ toString st.llmCount
      let llmStart := st.clock
      let st1 : SeqState :=
        { st with
          llmCount := st.llmCount + 1, clock := st.clock + 1,
          calls := st.calls ++ [⟨llmName, Signal.top⟩] }
      if aborted then (Except.error "aborted", st1)
      else
        let fcs := roundCalls round
        let llmEnd := st1.clock
        let st2 : SeqState :=
          { st1 with
            clock := st1.clock + 1,
            events := st1.events ++
              [⟨EventType.llm, llmName, partsText msgs, llmStart, llmEnd⟩] }
        let out1 := out ++ roundText round
        if fcs.isEmpty then (Except.ok out1, st2)
        else
          let (toolParts, st3) := seqExecTools registry fcs [] st2
          seqLoop registry aborted rest toolParts out1 st3

/-- The Sequential Fallback Executor `runPromptSequentially`: starts from the
user prompt as the first input message, an empty accumulated output and a
fresh state. -/
def runPromptSequentially (registry : ToolRegistry) (aborted : Bool)
    (script : List SeqRound) (prompt : String) : Except String String × SeqState :=
  seqLoop registry aborted script [⟨some prompt⟩] "" ⟨0, [], [], 0⟩

/-- The parts one requested invocation contributes to the next round's input
message (the tool's response parts, independent of the generated call id). -/
def toolOutput (registry : ToolRegistry) (fc : FunctionCall) : List Part :=
  respParts (executeToolCall registry (mkRequest 0 fc))

/-- The parts a whole round's requested invocations contribute to the next
round's input message. -/
def toolOutputParts (registry : ToolRegistry) : List FunctionCall → List Part
  | [] => []
  | fc :: rest => toolOutput registry fc ++ toolOutputParts registry rest

/-- A second definition of the sequential fallback, written from the spec's
words (section 4.3 state machine) for the refinement comparison with
`runPromptSequentially`: send the current message (initially the prompt); if
the response requests zero tool invocations the accumulated text is the final
output, otherwise the collected tool outputs become the next round's input
message and the loop repeats. The result is `none` when the scripted client
cannot answer a round, and otherwise carries the final text together with the
input texts of the inference rounds in order. -/
def seqSpecLoop (registry : ToolRegistry) :
    List SeqRound → List Part → String → Option (String × List String)
  | [], _, _ => none
  | r :: rest, msgs, acc =>
      if (roundCalls r).isEmpty then some (acc ++ roundText r, [partsText msgs])
      else
        match seqSpecLoop registry rest (toolOutputParts registry (roundCalls r))
            (acc ++ roundText r) with
        | some p => some (p.1, partsText msgs :: p.2)
        | none => none

/-- The node identifier the driver's tool-registration loop obtains for one
requested invocation. -/
def fcNodeName (now : Nat) (fc : FunctionCall) : String :=
  "tool_" ++ (mkRequest now fc).callId

/-- The node the driver's tool-registration loop adds for one requested
invocation whose tool is present in the registry. -/
def fcNode (registry : ToolRegistry) (now : Nat) (fc : FunctionCall) : DAGNode :=
  { name := fcNodeName now fc, deps := [], kind := NodeKind.toolK,
    toolName := (mkRequest now fc).name, toolArgs := fc.args,
    toolOutcome :=
      match getTool registry (mkRequest now fc).name with
      | some t => t.outcome
      | none => Except.error "" }

/-- The event spans are chronologically chained: each event ends no later than
the next one starts. -/
def SpanOrdered (l : List ExecutionEvent) : Prop :=
  List.Chain' (fun a b => a.endTime ≤ b.start) l

/-- Every span starts no later than it ends. -/
def SpansWF (l : List ExecutionEvent) : Prop :=
  ∀ e ∈ l, e.start ≤ e.endTime

/-- Every span ends no later than the given clock value. -/
def SpansBelow (l : List ExecutionEvent) (c : Nat) : Prop :=
  ∀ e ∈ l, e.endTime ≤ c

/-- Dependency relation at the level of node identifiers: `a` depends on `b`
when some node named `a` lists `b` in its dependency set. -/
def NameEdge (nodes : List DAGNode) (a b : String) : Prop :=
  ∃ n, n ∈ nodes ∧ n.name = a ∧ b ∈ n.deps

/-- Node lists producible by the graph builder: every added node carries a
name not used before it and dependencies that name already-present nodes.
These are exactly the conditions `DAG.addNode` enforces. -/
inductive SaneNodes : List DAGNode → Prop
  | nil : SaneNodes []
  | snoc (l : List DAGNode) (n : DAGNode) :
      SaneNodes l →
      (∀ d ∈ n.deps, ∃ m, m ∈ l ∧ m.name = d) →
      (∀ m ∈ l, m.name ≠ n.name) →
      SaneNodes (l ++ [n])

/-- Builder states reachable from a fresh scheduler by any sequence of add
operations, counting failed attempts (which leave the graph unchanged but may
advance the identifier counter). -/
inductive Built : TygentScheduler → Prop
  | init : Built TygentScheduler.init
  | llm (s : TygentScheduler) (prompt : String) (deps : List String) :
      Built s → Built (s.addLLMCall prompt deps).2
  | tool (s : TygentScheduler) (registry : ToolRegistry)
      (req : ToolCallRequestInfo) (deps : List String) :
      Built s → Built (s.addToolCall registry req deps).2

/-!
Theorems. The helper lemmas characterize the primitive state transitions; the
claim theorems are named `claim_<id>` with witnesses `claim_<id>_witness` and
counterexamples `claim_<id>_cex`.
-/

theorem takeResponse_cons (st : ExecState) (r : Except String Response)
    (rest : List (Except String Response)) (h : st.script = r :: rest) :
    takeResponse st =
      (r, { st with script := rest, inferCalls := st.inferCalls + 1 }) := by
  simp [takeResponse, h]

theorem takeResponse_nil (st : ExecState) (h : st.script = []) :
    takeResponse st =
      (Except.error "no response", { st with inferCalls := st.inferCalls + 1 }) := by
  simp [takeResponse, h]

theorem callGenerate_cons (sig : Signal) (nm ctx : String) (st : ExecState)
    (r : Except String Response) (rest : List (Except String Response))
    (h : st.script = r :: rest) :
    callGenerate sig nm ctx st =
      (r, { st with
        clock := st.clock + 2, script := rest, inferCalls := st.inferCalls + 1,
        events := st.events ++ [⟨EventType.llm, nm, ctx, st.clock, st.clock + 1⟩],
        calls := st.calls ++ [⟨nm, sig⟩] }) := by
  simp [callGenerate, takeResponse, h]

theorem callGenerate_nil (sig : Signal) (nm ctx : String) (st : ExecState)
    (h : st.script = []) :
    callGenerate sig nm ctx st =
      (Except.error "no response", { st with
        clock := st.clock + 2, inferCalls := st.inferCalls + 1,
        events := st.events ++ [⟨EventType.llm, nm, ctx, st.clock, st.clock + 1⟩],
        calls := st.calls ++ [⟨nm, sig⟩] }) := by
  simp [callGenerate, takeResponse, h]

theorem execToolNode_eq (n : DAGNode) (st : ExecState) :
    execToolNode n st =
      (n.toolOutcome, { st with
        clock := st.clock + 2,
        events := st.events ++
          [⟨EventType.tool, n.name, n.toolName ++ " " ++ jsonStringify n.toolArgs,
            st.clock, st.clock + 1⟩],
        calls := st.calls ++ [⟨n.name, Signal.timeout 300000⟩] }) := rfl

/-- C1: a Workflow Driver run whose initial inference response requests zero
tool invocations returns that response's text, and the inference client is
invoked exactly once. -/
theorem claim_C1 (registry : ToolRegistry) (prompt t : String) (r : Response)
    (rest : List (Except String Response))
    (hno : getFunctionCalls r = []) (ht : getResponseText r = some t) :
    (runPromptWithTools registry prompt (initState (Except.ok r :: rest))).1 =
        Except.ok t ∧
    (runPromptWithTools registry prompt
        (initState (Except.ok r :: rest))).2.inferCalls = 1 := by
  simp [runPromptWithTools, callGenerate, takeResponse, initState, hno, ht]

/-- Witness for C1: the unit-test scenario, prompt "hello", one mocked
response with text "hello" and no tool requests. -/
theorem claim_C1_witness :
    (runPromptWithTools [] "hello"
        (initState [Except.ok ⟨some "hello", []⟩])).1 = Except.ok "hello" ∧
    (runPromptWithTools [] "hello"
        (initState [Except.ok ⟨some "hello", []⟩])).2.inferCalls = 1 :=
  claim_C1 [] "hello" "hello" ⟨some "hello", []⟩ [] rfl rfl

/-- C5: addToolCall resolves the tool in the registry at build time: a missing
tool fails synchronously with the ToolNotFound error and the builder state is
unchanged (no node is added), while a present tool (with a dependency list the
graph accepts) registers a node capturing the tool's execution and returns the
identifier tool_<callId>. -/
theorem claim_C5 :
    (∀ (s : TygentScheduler) (registry : ToolRegistry)
        (req : ToolCallRequestInfo) (deps : List String),
        getTool registry req.name = none →
        s.addToolCall registry req deps =
          (Except.error (BuildError.ToolNotFound req.name), s)) ∧
    (∀ (s : TygentScheduler) (registry : ToolRegistry)
        (req : ToolCallRequestInfo) (deps : List String) (tool : Tool),
        getTool registry req.name = some tool →
        (∀ d ∈ deps, d ≠ "tool_" ++ req.callId ∧ ∃ m ∈ s.dag.nodes, m.name = d) →
        (∀ m ∈ s.dag.nodes, m.name ≠ "tool_" ++ req.callId) →
        (s.addToolCall registry req deps).1 = Except.ok ("tool_" ++ req.callId) ∧
        (s.addToolCall registry req deps).2.dag.nodes =
          s.dag.nodes ++
            [{ name := "tool_" ++ req.callId, deps := deps, kind := NodeKind.toolK,
               toolName := req.name, toolArgs := req.args,
               toolOutcome := tool.outcome }]) := by
  constructor
  · intro s registry req deps h
    simp [TygentScheduler.addToolCall, h]
  · intro s registry req deps tool h hdeps hfresh
    have hself : ("tool_" ++ req.callId) ∉ deps := by
      intro hmem
      exact (hdeps _ hmem).1 rfl
    have hall : deps.all (fun dep => s.dag.nodes.any (fun m => m.name = dep)) = true := by
      rw [List.all_eq_true]
      intro d hd
      obtain ⟨-, m, hm, hname⟩ := hdeps d hd
      exact List.any_eq_true.mpr ⟨m, hm, by simp [hname]⟩
    have hdup : s.dag.nodes.any (fun m => m.name = "tool_" ++ req.callId) = false := by
      rw [List.any_eq_false]
      intro m hm
      simp [hfresh m hm]
    simp [TygentScheduler.addToolCall, h, DAG.addNode, hself, hall, hdup]

/-- Witness for C5: a missing tool is rejected with ToolNotFound on a fresh
builder, and a present tool yields the identifier tool_1. -/
theorem claim_C5_witness :
    (TygentScheduler.init.addToolCall [] ⟨"1", "dummy", [], false⟩ [] =
        (Except.error (BuildError.ToolNotFound "dummy"), TygentScheduler.init)) ∧
    ((TygentScheduler.init.addToolCall [⟨"dummy", Except.ok ⟨"done", []⟩⟩]
        ⟨"1", "dummy", [], false⟩ []).1 = Except.ok ("tool_" ++ "1")) :=
  ⟨claim_C5.1 TygentScheduler.init [] ⟨"1", "dummy", [], false⟩ [] rfl,
   (claim_C5.2 TygentScheduler.init [⟨"dummy", Except.ok ⟨"done", []⟩⟩]
      ⟨"1", "dummy", [], false⟩ [] ⟨"dummy", Except.ok ⟨"done", []⟩⟩ rfl
      (by simp) (by simp [TygentScheduler.init])).1⟩

/-- C3 counterexample: on a fresh builder, addLLMCall with dependency list
["llm_0"] references an identifier never returned by the builder, yet the call
fails with CycleDetected (the identifier coincides with the one being
allocated for the new node), not with UnknownDependency. -/
theorem claim_C3_cex :
    (TygentScheduler.init.addLLMCall "p" ["llm_0"]).1 =
        Except.error BuildError.CycleDetected ∧
    BuildError.CycleDetected ≠ BuildError.UnknownDependency := by
  constructor
  · rfl
  · decide

/-- C3 (amended): an add operation whose dependsOn list contains an identifier
that names no node of the graph and is distinct from the identifier being
allocated for the new node fails with UnknownDependency before the node is
registered, and the graph is unchanged (for addToolCall this holds once the
tool itself is present, since the tool lookup precedes the dependency check);
a dependency equal to the allocated identifier itself fails with CycleDetected
instead. -/
theorem claim_C3 :
    (∀ (s : TygentScheduler) (prompt : String) (deps : List String) (d : String),
        d ∈ deps → (∀ m ∈ s.dag.nodes, m.name ≠ d) →
        ("llm_" ++ toString s.nodeCount) ∉ deps →
        (s.addLLMCall prompt deps).1 = Except.error BuildError.UnknownDependency ∧
        (s.addLLMCall prompt deps).2.dag = s.dag) ∧
    (∀ (s : TygentScheduler) (registry : ToolRegistry)
        (req : ToolCallRequestInfo) (deps : List String) (tool : Tool) (d : String),
        getTool registry req.name = some tool →
        d ∈ deps → (∀ m ∈ s.dag.nodes, m.name ≠ d) →
        ("tool_" ++ req.callId) ∉ deps →
        (s.addToolCall registry req deps).1 = Except.error BuildError.UnknownDependency ∧
        (s.addToolCall registry req deps).2.dag = s.dag) := by
  have hnotall : ∀ (s : TygentScheduler) (deps : List String) (d : String),
      d ∈ deps → (∀ m ∈ s.dag.nodes, m.name ≠ d) →
      ¬ (deps.all (fun dep => s.dag.nodes.any (fun m => m.name = dep)) = true) := by
    intro s deps d hd hfresh hall
    obtain ⟨m, hm, hname⟩ := List.any_eq_true.mp (List.all_eq_true.mp hall d hd)
    exact hfresh m hm (by simpa using hname)
  constructor
  · intro s prompt deps d hd hfresh hns
    simp [TygentScheduler.addLLMCall, DAG.addNode, hns, hnotall s deps d hd hfresh]
  · intro s registry req deps tool d hreg hd hfresh hns
    simp [TygentScheduler.addToolCall, hreg, DAG.addNode, hns,
      hnotall s deps d hd hfresh]

/-- Witness for C3 (amended): with one node llm_0 present, a dependency on the
unknown identifier "ghost" is rejected with UnknownDependency and the graph
still holds exactly the node llm_0. -/
theorem claim_C3_witness :
    ((TygentScheduler.init.addLLMCall "p" []).2.addLLMCall "q" ["ghost"]).1 =
        Except.error BuildError.UnknownDependency ∧
    ((TygentScheduler.init.addLLMCall "p" []).2.addLLMCall "q" ["ghost"]).2.dag =
      (TygentScheduler.init.addLLMCall "p" []).2.dag :=
  claim_C3.1 (TygentScheduler.init.addLLMCall "p" []).2 "q" ["ghost"] "ghost"
    (by simp) (by decide) (by decide)

/-- C2: a Workflow Driver run whose first inference response requests exactly
the tool invocation (dummy, empty arguments, call id 1) against a registry
holding a succeeding dummy tool, and whose follow-up response carries text
"final", returns "final" after exactly two inference invocations, and the tool
node's event lies between the two inference events (it starts after the first
ends and ends before the second starts). -/
theorem claim_C2 (registry : ToolRegistry) (tool : Tool) (tr : ToolResult)
    (t1 : Option String) (prompt : String) (rest : List (Except String Response))
    (hreg : getTool registry "dummy" = some tool)
    (hok : tool.outcome = Except.ok tr)
    (script : List (Except String Response))
    (hscript : script =
      Except.ok ⟨t1, [⟨some "dummy", some "1", []⟩]⟩ ::
        Except.ok ⟨some "final", []⟩ :: rest) :
    (runPromptWithTools registry prompt (initState script)).1 = Except.ok "final" ∧
    (runPromptWithTools registry prompt (initState script)).2.inferCalls = 2 ∧
    ∃ e1 et e2,
      (runPromptWithTools registry prompt (initState script)).2.events = [e1, et, e2] ∧
      e1.type = EventType.llm ∧ et.type = EventType.tool ∧ e2.type = EventType.llm ∧
      e1.endTime ≤ et.start ∧ et.endTime ≤ e2.start := by
  subst hscript
  refine ⟨?_, ?_, ?_⟩
  · simp [runPromptWithTools, callGenerate, takeResponse, initState,
      getFunctionCalls, getResponseText, addToolCalls, TygentScheduler.addToolCall,
      TygentScheduler.init, mkRequest, hreg, DAG.addNode, TygentScheduler.run,
      executeNodes, execNode, execToolNode, hok, gatherToolParts, getResponseParts,
      Except.map, String.intercalate, respParts, runToolsPhase, finishFollowUp]
  · simp [runPromptWithTools, callGenerate, takeResponse, initState,
      getFunctionCalls, getResponseText, addToolCalls, TygentScheduler.addToolCall,
      TygentScheduler.init, mkRequest, hreg, DAG.addNode, TygentScheduler.run,
      executeNodes, execNode, execToolNode, hok, gatherToolParts, getResponseParts,
      Except.map, String.intercalate, respParts, runToolsPhase, finishFollowUp]
  · refine ⟨⟨EventType.llm, "llm_plan", prompt, 0, 1⟩,
      ⟨EventType.tool, "tool_1", "dummy " ++ jsonStringify [], 2, 3⟩,
      ⟨EventType.llm, "llm_0", "".take 100, 4, 5⟩, ?_, rfl, rfl, rfl,
      by show (1 : Nat) ≤ 2; decide, by show (3 : Nat) ≤ 4; decide⟩
    simp [runPromptWithTools, callGenerate, takeResponse, initState,
      getFunctionCalls, getResponseText, addToolCalls, TygentScheduler.addToolCall,
      TygentScheduler.init, mkRequest, hreg, DAG.addNode, TygentScheduler.run,
      executeNodes, execNode, execToolNode, hok, gatherToolParts, getResponseParts,
      Except.map, String.intercalate, respParts, runToolsPhase, finishFollowUp]

/-- Witness for C2: the unit-test scenario with a concrete dummy tool. -/
theorem claim_C2_witness :
    (runPromptWithTools [⟨"dummy", Except.ok ⟨"done", [⟨some "tool"⟩]⟩⟩] "prompt"
        (initState
          [Except.ok ⟨some "", [⟨some "dummy", some "1", []⟩]⟩,
           Except.ok ⟨some "final", []⟩])).1 = Except.ok "final" ∧
    (runPromptWithTools [⟨"dummy", Except.ok ⟨"done", [⟨some "tool"⟩]⟩⟩] "prompt"
        (initState
          [Except.ok ⟨some "", [⟨some "dummy", some "1", []⟩]⟩,
           Except.ok ⟨some "final", []⟩])).2.inferCalls = 2 ∧
    ∃ e1 et e2,
      (runPromptWithTools [⟨"dummy", Except.ok ⟨"done", [⟨some "tool"⟩]⟩⟩] "prompt"
        (initState
          [Except.ok ⟨some "", [⟨some "dummy", some "1", []⟩]⟩,
           Except.ok ⟨some "final", []⟩])).2.events = [e1, et, e2] ∧
      e1.type = EventType.llm ∧ et.type = EventType.tool ∧ e2.type = EventType.llm ∧
      e1.endTime ≤ et.start ∧ et.endTime ≤ e2.start :=
  claim_C2 [⟨"dummy", Except.ok ⟨"done", [⟨some "tool"⟩]⟩⟩]
    ⟨"dummy", Except.ok ⟨"done", [⟨some "tool"⟩]⟩⟩ ⟨"done", [⟨some "tool"⟩]⟩
    (some "") "prompt" [] rfl rfl _ rfl

theorem addNode_ok (d : DAG) (n : DAGNode) (d' : DAG)
    (h : d.addNode n = Except.ok d') :
    d'.nodes = d.nodes ++ [n] ∧
    (∀ dep ∈ n.deps, ∃ m ∈ d.nodes, m.name = dep) ∧
    (∀ m ∈ d.nodes, m.name ≠ n.name) := by
  unfold DAG.addNode at h
  split_ifs at h with h1 h2 h3
  cases h
  refine ⟨rfl, ?_, ?_⟩
  · intro dep hdep
    obtain ⟨m, hm, he⟩ := List.any_eq_true.mp (List.all_eq_true.mp h2 dep hdep)
    exact ⟨m, hm, by simpa using he⟩
  · intro m hm he
    exact h3 (List.any_eq_true.mpr ⟨m, hm, by simp [he]⟩)

theorem addNode_sane (d : DAG) (n : DAGNode) (d' : DAG)
    (h : d.addNode n = Except.ok d') (hs : SaneNodes d.nodes) :
    SaneNodes d'.nodes := by
  obtain ⟨heq, hdeps, hfresh⟩ := addNode_ok d n d' h
  rw [heq]
  exact SaneNodes.snoc _ _ hs hdeps hfresh

theorem built_sane (s : TygentScheduler) (h : Built s) : SaneNodes s.dag.nodes := by
  induction h with
  | init => exact SaneNodes.nil
  | llm s prompt deps hb ih =>
      unfold TygentScheduler.addLLMCall
      cases hm : s.dag.addNode
          { name := "llm_" ++ toString s.nodeCount, deps := deps,
            kind := NodeKind.llmK, prompt := prompt } with
      | error e => simpa [hm] using ih
      | ok d' =>
          simpa [hm] using addNode_sane s.dag _ d' hm ih
  | tool s registry req deps hb ih =>
      unfold TygentScheduler.addToolCall
      cases hreg : getTool registry req.name with
      | none => simpa [hreg] using ih
      | some tool =>
          cases hm : s.dag.addNode
              { name := "tool_" ++ req.callId, deps := deps, kind := NodeKind.toolK,
                toolName := req.name, toolArgs := req.args,
                toolOutcome := tool.outcome } with
          | error e => simpa [hreg, hm] using ih
          | ok d' => simpa [hreg, hm] using addNode_sane s.dag _ d' hm ih

theorem sane_depsClosed (l : List DAGNode) (h : SaneNodes l) :
    ∀ m ∈ l, ∀ dep ∈ m.deps, ∃ m2 ∈ l, m2.name = dep := by
  induction h with
  | nil => simp
  | snoc l n hl hdeps hfresh ih =>
      intro m hm dep hdep
      rcases List.mem_append.mp hm with hm' | hm'
      · obtain ⟨m2, hm2, he⟩ := ih m hm' dep hdep
        exact ⟨m2, List.mem_append_left _ hm2, he⟩
      · have hmn : m = n := by simpa using hm'
        subst hmn
        obtain ⟨m2, hm2, he⟩ := hdeps dep hdep
        exact ⟨m2, List.mem_append_left _ hm2, he⟩

theorem snoc_no_edge_into (l : List DAGNode) (n : DAGNode) (h : SaneNodes l)
    (hdeps : ∀ d ∈ n.deps, ∃ m ∈ l, m.name = d)
    (hfresh : ∀ m ∈ l, m.name ≠ n.name) :
    ∀ a b, NameEdge (l ++ [n]) a b → b ≠ n.name := by
  rintro a b ⟨w, hw, hname, hdep⟩ hbn
  rcases List.mem_append.mp hw with hw' | hw'
  · obtain ⟨m2, hm2, he⟩ := sane_depsClosed l h w hw' b hdep
    exact hfresh m2 hm2 (hbn ▸ he)
  · have hwn : w = n := by simpa using hw'
    subst hwn
    obtain ⟨m2, hm2, he⟩ := hdeps b hdep
    exact hfresh m2 hm2 (hbn ▸ he)

theorem edge_of_edge_snoc (l : List DAGNode) (n : DAGNode) (a b : String)
    (ha : a ≠ n.name) (h : NameEdge (l ++ [n]) a b) : NameEdge l a b := by
  obtain ⟨w, hw, hname, hdep⟩ := h
  rcases List.mem_append.mp hw with hw' | hw'
  · exact ⟨w, hw', hname, hdep⟩
  · have hwn : w = n := by simpa using hw'
    subst hwn
    exact absurd hname.symm ha

theorem transGen_snoc (l : List DAGNode) (n : DAGNode) (h : SaneNodes l)
    (hdeps : ∀ d ∈ n.deps, ∃ m ∈ l, m.name = d)
    (hfresh : ∀ m ∈ l, m.name ≠ n.name) :
    ∀ a b, Relation.TransGen (NameEdge (l ++ [n])) a b →
      b ≠ n.name ∧ (a ≠ n.name → Relation.TransGen (NameEdge l) a b) := by
  intro a b hab
  induction hab with
  | single hab =>
      exact ⟨snoc_no_edge_into l n h hdeps hfresh _ _ hab,
        fun ha => Relation.TransGen.single (edge_of_edge_snoc l n _ _ ha hab)⟩
  | tail hab hbc ih =>
      exact ⟨snoc_no_edge_into l n h hdeps hfresh _ _ hbc,
        fun ha => Relation.TransGen.tail (ih.2 ha)
          (edge_of_edge_snoc l n _ _ ih.1 hbc)⟩

theorem transGen_head_edge {α : Type} {R : α → α → Prop} {x y : α}
    (h : Relation.TransGen R x y) : ∃ b, R x b := by
  induction h with
  | single h => exact ⟨_, h⟩
  | tail _ _ ih => exact ih

theorem sane_no_cycle (l : List DAGNode) (h : SaneNodes l) :
    ∀ x, ¬ Relation.TransGen (NameEdge l) x x := by
  induction h with
  | nil =>
      intro x hx
      obtain ⟨b, w, hw, -, -⟩ := transGen_head_edge hx
      simp at hw
  | snoc l n hl hdeps hfresh ih =>
      intro x hx
      have hxn : x ≠ n.name := (transGen_snoc l n hl hdeps hfresh x x hx).1
      exact ih x ((transGen_snoc l n hl hdeps hfresh x x hx).2 hxn)

theorem callGenerate_state (sig : Signal) (nm ctx : String) (st : ExecState) :
    (callGenerate sig nm ctx st).2 =
      { st with
        clock := st.clock + 2, script := st.script.tail,
        inferCalls := st.inferCalls + 1,
        events := st.events ++ [⟨EventType.llm, nm, ctx, st.clock, st.clock + 1⟩],
        calls := st.calls ++ [⟨nm, sig⟩] } := by
  cases h : st.script with
  | nil => simp [callGenerate_nil sig nm ctx st h, h]
  | cons r rest => simp [callGenerate_cons sig nm ctx st r rest h, h]

theorem execNode_calls (n : DAGNode) (st : ExecState) :
    (execNode n st).2.calls = st.calls ++ [⟨n.name, Signal.timeout 300000⟩] := by
  cases hk : n.kind <;>
    simp [execNode, hk, execLLMNode, execToolNode_eq, callGenerate_state]

theorem executeNodes_calls : ∀ (nodes : List DAGNode)
    (acc : List (String × NodeOutput)) (st : ExecState) (rec : OpRecord),
    rec ∈ (executeNodes nodes acc st).2.calls →
    rec ∈ st.calls ∨
      ∃ n, n ∈ nodes ∧ rec.name = n.name ∧ rec.signal = Signal.timeout 300000 := by
  intro nodes
  induction nodes with
  | nil =>
      intro acc st rec h
      exact Or.inl (by simpa [executeNodes] using h)
  | cons n rest ih =>
      intro acc st rec h
      rcases hstep : execNode n st with ⟨res, st1⟩
      have hcalls : st1.calls = st.calls ++ [⟨n.name, Signal.timeout 300000⟩] := by
        have h' := execNode_calls n st
        rw [hstep] at h'
        exact h'
      have hsplit : rec ∈ st1.calls →
          rec ∈ st.calls ∨
            ∃ m, m ∈ n :: rest ∧ rec.name = m.name ∧
              rec.signal = Signal.timeout 300000 := by
        intro hmem
        rw [hcalls] at hmem
        rcases List.mem_append.mp hmem with hmem' | hmem'
        · exact Or.inl hmem'
        · have : rec = ⟨n.name, Signal.timeout 300000⟩ := by simpa using hmem'
          exact Or.inr ⟨n, by simp, by simp [this], by simp [this]⟩
      rcases res with e | out
      · have : (executeNodes (n :: rest) acc st).2 = st1 := by
          simp [executeNodes, hstep]
        rw [this] at h
        exact hsplit h
      · have : executeNodes (n :: rest) acc st =
            executeNodes rest (acc ++ [(n.name, out)]) st1 := by
          simp [executeNodes, hstep]
        rw [this] at h
        rcases ih _ st1 rec h with hmem | ⟨m, hm, hn, hs⟩
        · exact hsplit hmem
        · exact Or.inr ⟨m, by simp [hm], hn, hs⟩

theorem addToolCalls_nodes (registry : ToolRegistry) (now : Nat) :
    ∀ (fcs : List FunctionCall) (s : TygentScheduler) (acc : List String)
      (names : List String) (s' : TygentScheduler),
    addToolCalls registry now fcs s acc = Except.ok (names, s') →
    ∀ n ∈ s'.dag.nodes,
      n ∈ s.dag.nodes ∨
        (n.kind = NodeKind.toolK ∧ ∃ cid, n.name = "tool_" ++ cid) := by
  intro fcs
  induction fcs with
  | nil =>
      intro s acc names s' h n hn
      cases h
      exact Or.inl hn
  | cons fc rest ih =>
      intro s acc names s' h n hn
      rcases hreg : getTool registry (mkRequest now fc).name with - | tool
      · simp [addToolCalls, TygentScheduler.addToolCall, hreg] at h
      · rcases hadd : s.dag.addNode
            { name := "tool_" ++ (mkRequest now fc).callId, deps := [],
              kind := NodeKind.toolK, toolName := (mkRequest now fc).name,
              toolArgs := (mkRequest now fc).args,
              toolOutcome := tool.outcome } with e | d'
        · simp [addToolCalls, TygentScheduler.addToolCall, hreg, hadd] at h
        · have hstep : addToolCalls registry now (fc :: rest) s acc =
              addToolCalls registry now rest { s with dag := d' }
                (acc ++ ["tool_" ++ (mkRequest now fc).callId]) := by
            simp [addToolCalls, TygentScheduler.addToolCall, hreg, hadd]
          rw [hstep] at h
          rcases ih _ _ names s' h n hn with hmem | hcase
          · have hnodes := (addNode_ok s.dag _ d' hadd).1
            simp only [hnodes] at hmem
            rcases List.mem_append.mp hmem with hmem' | hmem'
            · exact Or.inl hmem'
            · have : n =
                  { name := "tool_" ++ (mkRequest now fc).callId, deps := [],
                    kind := NodeKind.toolK, toolName := (mkRequest now fc).name,
                    toolArgs := (mkRequest now fc).args,
                    toolOutcome := tool.outcome } := by simpa using hmem'
              exact Or.inr ⟨by simp [this], (mkRequest now fc).callId, by simp [this]⟩
          · exact Or.inr hcase

/-- C4: an add operation whose dependency set would create a cycle — a node
depending on its own identifier — fails with CycleDetected and leaves the
graph unchanged, and after every sequence of add operations from a fresh
builder the dependency graph is acyclic (no identifier reaches itself through
the dependency relation). -/
theorem claim_C4 :
    (∀ (s : TygentScheduler) (prompt : String) (deps : List String),
        ("llm_" ++ toString s.nodeCount) ∈ deps →
        (s.addLLMCall prompt deps).1 = Except.error BuildError.CycleDetected ∧
        (s.addLLMCall prompt deps).2.dag = s.dag) ∧
    (∀ (s : TygentScheduler) (registry : ToolRegistry)
        (req : ToolCallRequestInfo) (deps : List String) (tool : Tool),
        getTool registry req.name = some tool →
        ("tool_" ++ req.callId) ∈ deps →
        (s.addToolCall registry req deps).1 = Except.error BuildError.CycleDetected ∧
        (s.addToolCall registry req deps).2.dag = s.dag) ∧
    (∀ s : TygentScheduler, Built s →
        ∀ x, ¬ Relation.TransGen (NameEdge s.dag.nodes) x x) := by
  refine ⟨?_, ?_, ?_⟩
  · intro s prompt deps hself
    simp [TygentScheduler.addLLMCall, DAG.addNode, hself]
  · intro s registry req deps tool hreg hself
    simp [TygentScheduler.addToolCall, hreg, DAG.addNode, hself]
  · intro s hb
    exact sane_no_cycle s.dag.nodes (built_sane s hb)

/-- Witness for C4: a self-dependency on the identifier about to be allocated
is rejected on a fresh builder for both node kinds, and a builder that
registered one inference node has an acyclic graph. -/
theorem claim_C4_witness :
    ((TygentScheduler.init.addLLMCall "p" ["llm_0"]).1 =
        Except.error BuildError.CycleDetected ∧
     (TygentScheduler.init.addLLMCall "p" ["llm_0"]).2.dag =
        TygentScheduler.init.dag) ∧
    ((TygentScheduler.init.addToolCall [⟨"dummy", Except.ok ⟨"done", []⟩⟩]
        ⟨"1", "dummy", [], false⟩ ["tool_1"]).1 =
        Except.error BuildError.CycleDetected ∧
     (TygentScheduler.init.addToolCall [⟨"dummy", Except.ok ⟨"done", []⟩⟩]
        ⟨"1", "dummy", [], false⟩ ["tool_1"]).2.dag = TygentScheduler.init.dag) ∧
    (∀ x, ¬ Relation.TransGen
        (NameEdge (TygentScheduler.init.addLLMCall "p" []).2.dag.nodes) x x) :=
  ⟨claim_C4.1 TygentScheduler.init "p" ["llm_0"] (by decide),
   claim_C4.2.1 TygentScheduler.init [⟨"dummy", Except.ok ⟨"done", []⟩⟩]
     ⟨"1", "dummy", [], false⟩ ["tool_1"] ⟨"dummy", Except.ok ⟨"done", []⟩⟩ rfl
     (by decide),
   claim_C4.2.2 (TygentScheduler.init.addLLMCall "p" []).2
     (Built.llm TygentScheduler.init "p" [] Built.init)⟩

theorem seqExecTools_cons (registry : ToolRegistry) (fc : FunctionCall)
    (rest : List FunctionCall) (acc : List Part) (st : SeqState) :
    seqExecTools registry (fc :: rest) acc st =
      seqExecTools registry rest
        (acc ++ respParts (executeToolCall registry (mkRequest st.clock fc)))
        { st with
          clock := st.clock + 2,
          events := st.events ++
            [⟨EventType.tool, "tool_" ++ (fc.name.getD "undefined"),
              jsonStringify (mkRequest st.clock fc).args, st.clock, st.clock + 1⟩],
          calls := st.calls ++
            [⟨"tool_" ++ (fc.name.getD "undefined"), Signal.top⟩] } := rfl

theorem seqLoop_nil (registry : ToolRegistry) (aborted : Bool) (msgs : List Part)
    (out : String) (st : SeqState) :
    seqLoop registry aborted [] msgs out st =
      (Except.error "no response",
        { st with
          llmCount := st.llmCount + 1, clock := st.clock + 1,
          calls := st.calls ++ [⟨"llm_" ++ toString st.llmCount, Signal.top⟩] }) := rfl

theorem seqLoop_abort (registry : ToolRegistry) (round : SeqRound)
    (rest : List SeqRound) (msgs : List Part) (out : String) (st : SeqState) :
    seqLoop registry true (round :: rest) msgs out st =
      (Except.error "aborted",
        { st with
          llmCount := st.llmCount + 1, clock := st.clock + 1,
          calls := st.calls ++ [⟨"llm_" ++ toString st.llmCount, Signal.top⟩] }) := rfl

theorem seqLoop_step (registry : ToolRegistry) (round : SeqRound)
    (rest : List SeqRound) (msgs : List Part) (out : String) (st : SeqState) :
    seqLoop registry false (round :: rest) msgs out st =
      if (roundCalls round).isEmpty then
        (Except.ok (out ++ roundText round),
          { st with
            llmCount := st.llmCount + 1, clock := st.clock + 2,
            events := st.events ++
              [⟨EventType.llm, "llm_" ++ toString st.llmCount, partsText msgs,
                st.clock, st.clock + 1⟩],
            calls := st.calls ++ [⟨"llm_" ++ toString st.llmCount, Signal.top⟩] })
      else
        seqLoop registry false rest
          (seqExecTools registry (roundCalls round) []
            { st with
              llmCount := st.llmCount + 1, clock := st.clock + 2,
              events := st.events ++
                [⟨EventType.llm, "llm_" ++ toString st.llmCount, partsText msgs,
                  st.clock, st.clock + 1⟩],
              calls := st.calls ++
                [⟨"llm_" ++ toString st.llmCount, Signal.top⟩] }).1
          (out ++ roundText round)
          (seqExecTools registry (roundCalls round) []
            { st with
              llmCount := st.llmCount + 1, clock := st.clock + 2,
              events := st.events ++
                [⟨EventType.llm, "llm_" ++ toString st.llmCount, partsText msgs,
                  st.clock, st.clock + 1⟩],
              calls := st.calls ++
                [⟨"llm_" ++ toString st.llmCount, Signal.top⟩] }).2 := rfl

theorem seqExecTools_calls (registry : ToolRegistry) :
    ∀ (fcs : List FunctionCall) (acc : List Part) (st : SeqState) (rec : OpRecord),
    rec ∈ (seqExecTools registry fcs acc st).2.calls →
    rec ∈ st.calls ∨ rec.signal = Signal.top := by
  intro fcs
  induction fcs with
  | nil =>
      intro acc st rec h
      exact Or.inl (by simpa [seqExecTools] using h)
  | cons fc rest ih =>
      intro acc st rec h
      rw [seqExecTools_cons] at h
      rcases ih _ _ rec h with hmem | htop
      · rcases List.mem_append.mp hmem with hmem' | hmem'
        · exact Or.inl hmem'
        · have : rec = ⟨"tool_" ++ (fc.name.getD "undefined"), Signal.top⟩ := by
            simpa using hmem'
          exact Or.inr (by simp [this])
      · exact Or.inr htop

theorem seqLoop_calls (registry : ToolRegistry) :
    ∀ (script : List SeqRound) (aborted : Bool) (msgs : List Part) (out : String)
      (st : SeqState) (rec : OpRecord),
    rec ∈ (seqLoop registry aborted script msgs out st).2.calls →
    rec ∈ st.calls ∨ rec.signal = Signal.top := by
  intro script
  induction script with
  | nil =>
      intro aborted msgs out st rec h
      rw [seqLoop_nil] at h
      rcases List.mem_append.mp h with hmem | hmem
      · exact Or.inl hmem
      · have : rec = ⟨"llm_" ++ toString st.llmCount, Signal.top⟩ := by
          simpa using hmem
        exact Or.inr (by simp [this])
  | cons round rest ih =>
      intro aborted msgs out st rec h
      cases aborted with
      | true =>
          rw [seqLoop_abort] at h
          rcases List.mem_append.mp h with hmem | hmem
          · exact Or.inl hmem
          · have : rec = ⟨"llm_" ++ toString st.llmCount, Signal.top⟩ := by
              simpa using hmem
            exact Or.inr (by simp [this])
      | false =>
          rw [seqLoop_step] at h
          by_cases hc : (roundCalls round).isEmpty
          · rw [if_pos hc] at h
            rcases List.mem_append.mp h with hmem | hmem
            · exact Or.inl hmem
            · have : rec = ⟨"llm_" ++ toString st.llmCount, Signal.top⟩ := by
                simpa using hmem
              exact Or.inr (by simp [this])
          · rw [if_neg hc] at h
            rcases ih false _ _ _ rec h with hmem | htop
            · rcases seqExecTools_calls registry _ _ _ rec hmem with hmem' | htop'
              · rcases List.mem_append.mp hmem' with hmem2 | hmem2
                · exact Or.inl hmem2
                · have : rec = ⟨"llm_" ++ toString st.llmCount, Signal.top⟩ := by
                    simpa using hmem2
                  exact Or.inr (by simp [this])
              · exact Or.inr htop'
            · exact Or.inr htop

theorem callGenerate_eq (sig : Signal) (nm ctx : String) (st : ExecState) :
    callGenerate sig nm ctx st =
      ((match st.script with
        | [] => Except.error "no response"
        | r :: _ => r),
       { st with
         clock := st.clock + 2, script := st.script.tail,
         inferCalls := st.inferCalls + 1,
         events := st.events ++ [⟨EventType.llm, nm, ctx, st.clock, st.clock + 1⟩],
         calls := st.calls ++ [⟨nm, sig⟩] }) := by
  cases h : st.script with
  | nil => simp [callGenerate_nil sig nm ctx st h, h]
  | cons r rest => simp [callGenerate_cons sig nm ctx st r rest h, h]

theorem finishFollowUp_state (ctx : String) (st2 : ExecState) :
    (finishFollowUp ctx st2).2 =
      { st2 with
        clock := st2.clock + 2, script := st2.script.tail,
        inferCalls := st2.inferCalls + 1,
        events := st2.events ++
          [⟨EventType.llm, "llm_0", ctx, st2.clock, st2.clock + 1⟩],
        calls := st2.calls ++ [⟨"llm_0", Signal.top⟩] } := by
  unfold finishFollowUp
  rw [callGenerate_eq]
  cases st2.script with
  | nil => rfl
  | cons r rest => cases r <;> rfl

theorem runToolsPhase_calls (registry : ToolRegistry) (fcs : List FunctionCall)
    (st1 : ExecState) (rec : OpRecord)
    (h : rec ∈ (runToolsPhase registry fcs st1).2.calls) :
    rec ∈ st1.calls ∨ (rec.signal = Signal.top ∧ rec.name = "llm_0") ∨
      (rec.signal = Signal.timeout 300000 ∧ ∃ cid, rec.name = "tool_" ++ cid) := by
  unfold runToolsPhase at h
  rcases hadd : addToolCalls registry st1.clock fcs TygentScheduler.init [] with
    e | ⟨names, sched⟩
  · simp only [hadd] at h
    exact Or.inl h
  · simp only [hadd] at h
    have hnodes : ∀ n ∈ sched.dag.nodes,
        n.kind = NodeKind.toolK ∧ ∃ cid, n.name = "tool_" ++ cid := by
      intro n hn
      rcases addToolCalls_nodes registry _ _ _ _ _ _ hadd n hn with hmem | hok
      · simp [TygentScheduler.init] at hmem
      · exact hok
    have hfromRun : ∀ hmem : rec ∈ (TygentScheduler.run sched st1).2.calls,
        rec ∈ st1.calls ∨ (rec.signal = Signal.top ∧ rec.name = "llm_0") ∨
          (rec.signal = Signal.timeout 300000 ∧ ∃ cid, rec.name = "tool_" ++ cid) := by
      intro hmem
      rcases executeNodes_calls sched.dag.nodes [] st1 rec hmem with hmem' | hnode
      · exact Or.inl hmem'
      · obtain ⟨n, hn, hname, hsig⟩ := hnode
        obtain ⟨-, cid, hcid⟩ := hnodes n hn
        exact Or.inr (Or.inr ⟨hsig, cid, hname.trans hcid⟩)
    rcases hrun : TygentScheduler.run sched st1 with ⟨res, st2⟩
    rcases res with e | toolResults
    · simp only [hrun] at h
      exact hfromRun (by rw [hrun]; exact h)
    · simp only [hrun] at h
      rw [finishFollowUp_state] at h
      rcases List.mem_append.mp h with hmem | hmem
      · exact hfromRun (by rw [hrun]; exact hmem)
      · have : rec = ⟨"llm_0", Signal.top⟩ := by simpa using hmem
        exact Or.inr (Or.inl (by simp [this]))

theorem runPromptWithTools_calls (registry : ToolRegistry) (prompt : String)
    (st : ExecState) (rec : OpRecord)
    (h : rec ∈ (runPromptWithTools registry prompt st).2.calls) :
    rec ∈ st.calls ∨
      (rec.signal = Signal.top ∧ (rec.name = "llm_plan" ∨ rec.name = "llm_0")) ∨
      (rec.signal = Signal.timeout 300000 ∧ ∃ cid, rec.name = "tool_" ++ cid) := by
  have hsplit1 : rec ∈ st.calls ++ [(⟨"llm_plan", Signal.top⟩ : OpRecord)] →
      rec ∈ st.calls ∨
        (rec.signal = Signal.top ∧ (rec.name = "llm_plan" ∨ rec.name = "llm_0")) ∨
        (rec.signal = Signal.timeout 300000 ∧ ∃ cid, rec.name = "tool_" ++ cid) := by
    intro hmem
    rcases List.mem_append.mp hmem with hmem' | hmem'
    · exact Or.inl hmem'
    · have : rec = ⟨"llm_plan", Signal.top⟩ := by simpa using hmem'
      exact Or.inr (Or.inl (by simp [this]))
  rw [runPromptWithTools, callGenerate_eq] at h
  cases hs : st.script with
  | nil =>
      rw [hs] at h
      exact hsplit1 (by simpa using h)
  | cons r rest =>
      rw [hs] at h
      rcases r with e | resp
      · exact hsplit1 (by simpa using h)
      · simp only [] at h
        by_cases hempty : (getFunctionCalls resp).isEmpty
        · rw [if_pos hempty] at h
          exact hsplit1 (by simpa using h)
        · rw [if_neg hempty] at h
          rcases runToolsPhase_calls registry _ _ rec h with hmem | hllm0 | htool
          · exact hsplit1 (by simpa using hmem)
          · exact Or.inr (Or.inl ⟨hllm0.1, Or.inr hllm0.2⟩)
          · exact Or.inr (Or.inr htool)

/-- C6 counterexample: in the one-tool scenario the driver dispatches the tool
execution under a fresh 300-second timeout signal, not under the cancellation
signal threaded from the top-level call, so not every operation receives the
threaded signal. -/
theorem claim_C6_cex :
    (runPromptWithTools [⟨"dummy", Except.ok ⟨"done", [⟨some "tool"⟩]⟩⟩] "prompt"
        (initState
          [Except.ok ⟨some "", [⟨some "dummy", some "1", []⟩]⟩,
           Except.ok ⟨some "final", []⟩])).2.calls =
      [⟨"llm_plan", Signal.top⟩, ⟨"tool_1", Signal.timeout 300000⟩,
       ⟨"llm_0", Signal.top⟩] ∧
    Signal.timeout 300000 ≠ Signal.top := by
  constructor
  · rfl
  · decide

/-- C6 (amended): the driver's two direct inference calls run under the
cancellation signal threaded from the top-level call (with no per-operation
timeout of their own), every operation of the sequential executor runs under
the threaded signal, and the operations dispatched through the scheduler (the
graph's tool nodes, named tool_<callId>) each run under a fresh 300-second
AbortSignal.timeout — the 300-second per-operation default ceiling — instead
of the threaded top-level signal. -/
theorem claim_C6 :
    (∀ (registry : ToolRegistry) (prompt : String)
        (script : List (Except String Response)) (rec : OpRecord),
        rec ∈ (runPromptWithTools registry prompt (initState script)).2.calls →
        (rec.signal = Signal.top ∧ (rec.name = "llm_plan" ∨ rec.name = "llm_0")) ∨
        (rec.signal = Signal.timeout 300000 ∧ ∃ cid, rec.name = "tool_" ++ cid)) ∧
    (∀ (registry : ToolRegistry) (aborted : Bool) (script : List SeqRound)
        (prompt : String) (rec : OpRecord),
        rec ∈ (runPromptSequentially registry aborted script prompt).2.calls →
        rec.signal = Signal.top) := by
  constructor
  · intro registry prompt script rec h
    rcases runPromptWithTools_calls registry prompt (initState script) rec h with
      hmem | hrest
    · simp [initState] at hmem
    · exact hrest
  · intro registry aborted script prompt rec h
    rcases seqLoop_calls registry script aborted [⟨some prompt⟩] ""
        ⟨0, [], [], 0⟩ rec h with hmem | htop
    · simp at hmem
    · exact htop

/-- Witness for C6 (amended): in the one-tool driver scenario the llm_plan
record satisfies the first disjunct, and in the sequential scenario the tool
record carries the threaded signal. -/
theorem claim_C6_witness :
    ((⟨"llm_plan", Signal.top⟩ : OpRecord).signal = Signal.top ∧
      ((⟨"llm_plan", Signal.top⟩ : OpRecord).name = "llm_plan" ∨
        (⟨"llm_plan", Signal.top⟩ : OpRecord).name = "llm_0")) ∨
    ((⟨"llm_plan", Signal.top⟩ : OpRecord).signal = Signal.timeout 300000 ∧
      ∃ cid, (⟨"llm_plan", Signal.top⟩ : OpRecord).name = "tool_" ++ cid) :=
  claim_C6.1 [⟨"dummy", Except.ok ⟨"done", [⟨some "tool"⟩]⟩⟩] "prompt"
    [Except.ok ⟨some "", [⟨some "dummy", some "1", []⟩]⟩,
     Except.ok ⟨some "final", []⟩] ⟨"llm_plan", Signal.top⟩ (by decide)

theorem seqExecTools_events (registry : ToolRegistry) :
    ∀ (fcs : List FunctionCall) (acc : List Part) (st : SeqState),
    ∃ evts, (seqExecTools registry fcs acc st).2.events = st.events ++ evts ∧
      List.Forall₂ (fun (fc : FunctionCall) (e : ExecutionEvent) =>
        e.type = EventType.tool ∧
        e.name = "tool_" ++ (fc.name.getD "undefined") ∧
        e.context = jsonStringify fc.args ∧ e.start ≤ e.endTime) fcs evts := by
  intro fcs
  induction fcs with
  | nil =>
      intro acc st
      exact ⟨[], by simp [seqExecTools], List.Forall₂.nil⟩
  | cons fc rest ih =>
      intro acc st
      rw [seqExecTools_cons]
      obtain ⟨evts, heq, hall⟩ := ih _ _
      refine ⟨⟨EventType.tool, "tool_" ++ (fc.name.getD "undefined"),
        jsonStringify (mkRequest st.clock fc).args, st.clock, st.clock + 1⟩ :: evts,
        ?_, ?_⟩
      · rw [heq]
        simp
      · exact List.Forall₂.cons ⟨rfl, rfl, rfl, Nat.le_succ _⟩ hall

theorem seqLoop_events_mono (registry : ToolRegistry) :
    ∀ (script : List SeqRound) (aborted : Bool) (msgs : List Part) (out : String)
      (st : SeqState),
    ∃ tail, (seqLoop registry aborted script msgs out st).2.events =
      st.events ++ tail := by
  intro script
  induction script with
  | nil =>
      intro aborted msgs out st
      exact ⟨[], by rw [seqLoop_nil]; simp⟩
  | cons round rest ih =>
      intro aborted msgs out st
      cases aborted with
      | true => exact ⟨[], by rw [seqLoop_abort]; simp⟩
      | false =>
          rw [seqLoop_step]
          by_cases hc : (roundCalls round).isEmpty
          · rw [if_pos hc]
            exact ⟨[⟨EventType.llm, "llm_" ++ toString st.llmCount, partsText msgs,
              st.clock, st.clock + 1⟩], by simp⟩
          · rw [if_neg hc]
            obtain ⟨evts, heq, -⟩ := seqExecTools_events registry (roundCalls round) []
              { st with
                llmCount := st.llmCount + 1, clock := st.clock + 2,
                events := st.events ++
                  [⟨EventType.llm, "llm_" ++ toString st.llmCount, partsText msgs,
                    st.clock, st.clock + 1⟩],
                calls := st.calls ++ [⟨"llm_" ++ toString st.llmCount, Signal.top⟩] }
            obtain ⟨tail2, heq2⟩ := ih false _ _ _
            refine ⟨⟨EventType.llm, "llm_" ++ toString st.llmCount, partsText msgs,
              st.clock, st.clock + 1⟩ :: (evts ++ tail2), ?_⟩
            rw [heq2, heq]
            simp

/-- C7 counterexample: in the sequential executor's one-tool scenario the tool
event's context is the JSON arguments alone, not "<tool name> <arguments>" —
the tool name appears only in the event name tool_dummy. -/
theorem claim_C7_cex :
    ((runPromptSequentially [⟨"dummy", Except.ok ⟨"done", [⟨some "tool"⟩]⟩⟩] false
        [⟨[⟨some "", [⟨some "dummy", some "1", []⟩]⟩]⟩, ⟨[⟨some "final", []⟩]⟩]
        "prompt").2.events.map (fun e => (e.type, e.name, e.context))) =
      [(EventType.llm, "llm_0", "prompt"),
       (EventType.tool, "tool_dummy", "\x7b\x7d"),
       (EventType.llm, "llm_1", "tool")] ∧
    ("\x7b\x7d" : String) ≠ "dummy \x7b\x7d" := by
  constructor
  · rfl
  · decide

/-- C7 (amended): every operation attempt of the parallel scheduler appends
exactly one event — on completion and on failure alike — with start ≤ end,
name = the node identifier and context = the prompt (inference nodes) or
"<tool name> <JSON arguments>" (tool nodes); each of the driver's two direct
inference calls likewise appends exactly one event with its label and input
context even on failure; the sequential executor appends exactly one event per
executed tool with name tool_<fc.name> but context equal to the JSON arguments
alone, and one event per inference round with the round label and the input
message text as context — but an inference attempt that fails mid-stream
(abort) appends no event at all. -/
theorem claim_C7 :
    (∀ (n : DAGNode) (st : ExecState), ∃ e : ExecutionEvent,
        (execNode n st).2.events = st.events ++ [e] ∧ e.name = n.name ∧
        e.start ≤ e.endTime ∧
        (n.kind = NodeKind.llmK → e.type = EventType.llm ∧ e.context = n.prompt) ∧
        (n.kind = NodeKind.toolK → e.type = EventType.tool ∧
          e.context = n.toolName ++ " " ++ jsonStringify n.toolArgs)) ∧
    (∀ (sig : Signal) (nm ctx : String) (st : ExecState), ∃ e : ExecutionEvent,
        (callGenerate sig nm ctx st).2.events = st.events ++ [e] ∧
        e.type = EventType.llm ∧ e.name = nm ∧ e.context = ctx ∧
        e.start ≤ e.endTime) ∧
    (∀ (registry : ToolRegistry) (fcs : List FunctionCall) (acc : List Part)
        (st : SeqState), ∃ evts,
        (seqExecTools registry fcs acc st).2.events = st.events ++ evts ∧
        List.Forall₂ (fun (fc : FunctionCall) (e : ExecutionEvent) =>
          e.type = EventType.tool ∧
          e.name = "tool_" ++ (fc.name.getD "undefined") ∧
          e.context = jsonStringify fc.args ∧ e.start ≤ e.endTime) fcs evts) ∧
    (∀ (registry : ToolRegistry) (round : SeqRound) (rest : List SeqRound)
        (msgs : List Part) (out : String) (st : SeqState),
        ((seqLoop registry true (round :: rest) msgs out st).1 =
            Except.error "aborted" ∧
          (seqLoop registry true (round :: rest) msgs out st).2.events =
            st.events) ∧
        ∃ (e : ExecutionEvent) (tail : List ExecutionEvent),
          (seqLoop registry false (round :: rest) msgs out st).2.events =
            st.events ++ e :: tail ∧
          e.type = EventType.llm ∧ e.name = "llm_" ++ toString st.llmCount ∧
          e.context = partsText msgs ∧ e.start ≤ e.endTime) := by
  refine ⟨?_, ?_, ?_, ?_⟩
  · intro n st
    cases hk : n.kind with
    | llmK =>
        refine ⟨⟨EventType.llm, n.name, n.prompt, st.clock, st.clock + 1⟩, ?_,
          rfl, Nat.le_succ _, fun _ => ⟨rfl, rfl⟩, fun hko => ?_⟩
        · simp [execNode, hk, execLLMNode, callGenerate_state]
        · exact absurd hko (by decide)
    | toolK =>
        refine ⟨⟨EventType.tool, n.name,
          n.toolName ++ " " ++ jsonStringify n.toolArgs, st.clock, st.clock + 1⟩,
          ?_, rfl, Nat.le_succ _, fun hko => ?_, fun _ => ⟨rfl, rfl⟩⟩
        · simp [execNode, hk, execToolNode_eq]
        · exact absurd hko (by decide)
  · intro sig nm ctx st
    exact ⟨⟨EventType.llm, nm, ctx, st.clock, st.clock + 1⟩,
      by simp [callGenerate_state], rfl, rfl, rfl, Nat.le_succ _⟩
  · exact fun registry fcs acc st => seqExecTools_events registry fcs acc st
  · intro registry round rest msgs out st
    refine ⟨⟨by rw [seqLoop_abort], by rw [seqLoop_abort]⟩, ?_⟩
    rw [seqLoop_step]
    by_cases hc : (roundCalls round).isEmpty
    · rw [if_pos hc]
      exact ⟨⟨EventType.llm, "llm_" ++ toString st.llmCount, partsText msgs,
        st.clock, st.clock + 1⟩, [], by simp, rfl, rfl, rfl, Nat.le_succ _⟩
    · rw [if_neg hc]
      obtain ⟨evts, heq, -⟩ := seqExecTools_events registry (roundCalls round) []
        { st with
          llmCount := st.llmCount + 1, clock := st.clock + 2,
          events := st.events ++
            [⟨EventType.llm, "llm_" ++ toString st.llmCount, partsText msgs,
              st.clock, st.clock + 1⟩],
          calls := st.calls ++ [⟨"llm_" ++ toString st.llmCount, Signal.top⟩] }
      obtain ⟨tail2, heq2⟩ := seqLoop_events_mono registry rest false _ _ _
      refine ⟨⟨EventType.llm, "llm_" ++ toString st.llmCount, partsText msgs,
        st.clock, st.clock + 1⟩, evts ++ tail2, ?_, rfl, rfl, rfl, Nat.le_succ _⟩
      rw [heq2, heq]
      simp

/-- Witness for C7 (amended): a concrete inference node execution appends
exactly one inference event carrying its prompt as context. -/
theorem claim_C7_witness :
    ∃ e : ExecutionEvent,
      (execNode ⟨"llm_9", [], NodeKind.llmK, "hi", "", [], Except.error ""⟩
        (initState [])).2.events = (initState []).events ++ [e] ∧
      e.name = "llm_9" ∧ e.type = EventType.llm ∧ e.context = "hi" := by
  obtain ⟨e, h1, h2, h3, h4, h5⟩ :=
    claim_C7.1 ⟨"llm_9", [], NodeKind.llmK, "hi", "", [], Except.error ""⟩
      (initState [])
  exact ⟨e, h1, h2, (h4 rfl).1, (h4 rfl).2⟩

theorem spansBelow_mono (l : List ExecutionEvent) (c c' : Nat)
    (h : SpansBelow l c) (hc : c ≤ c') : SpansBelow l c' :=
  fun e he => le_trans (h e he) hc

theorem spans_snoc (l : List ExecutionEvent) (e : ExecutionEvent) (c : Nat)
    (h1 : SpanOrdered l) (h2 : SpansWF l) (h3 : SpansBelow l c)
    (he1 : c ≤ e.start) (he2 : e.start ≤ e.endTime) :
    SpanOrdered (l ++ [e]) ∧ SpansWF (l ++ [e]) ∧
      SpansBelow (l ++ [e]) e.endTime := by
  refine ⟨?_, ?_, ?_⟩
  · apply List.Chain'.append h1 (List.chain'_singleton e)
    intro x hx y hy
    have hx' : x ∈ l := List.mem_of_mem_getLast? hx
    have hy' : y = e := by simpa using hy.symm
    subst hy'
    exact le_trans (h3 x hx') he1
  · intro f hf
    rcases List.mem_append.mp hf with hf' | hf'
    · exact h2 f hf'
    · have : f = e := by simpa using hf'
      subst this
      exact he2
  · intro f hf
    rcases List.mem_append.mp hf with hf' | hf'
    · exact le_trans (h3 f hf') (le_trans he1 he2)
    · have : f = e := by simpa using hf'
      subst this
      exact Nat.le_refl _

theorem seqExecTools_inv (registry : ToolRegistry) :
    ∀ (fcs : List FunctionCall) (acc : List Part) (st : SeqState),
    SpanOrdered st.events → SpansWF st.events → SpansBelow st.events st.clock →
    SpanOrdered (seqExecTools registry fcs acc st).2.events ∧
    SpansWF (seqExecTools registry fcs acc st).2.events ∧
    SpansBelow (seqExecTools registry fcs acc st).2.events
      (seqExecTools registry fcs acc st).2.clock := by
  intro fcs
  induction fcs with
  | nil =>
      intro acc st h1 h2 h3
      exact ⟨h1, h2, h3⟩
  | cons fc rest ih =>
      intro acc st h1 h2 h3
      rw [seqExecTools_cons]
      apply ih
      · exact (spans_snoc st.events _ st.clock h1 h2 h3 (Nat.le_refl _)
          (Nat.le_succ _)).1
      · exact (spans_snoc st.events _ st.clock h1 h2 h3 (Nat.le_refl _)
          (Nat.le_succ _)).2.1
      · exact spansBelow_mono _ _ _
          (spans_snoc st.events _ st.clock h1 h2 h3 (Nat.le_refl _)
            (Nat.le_succ _)).2.2 (Nat.le_succ _)

theorem seqLoop_inv (registry : ToolRegistry) :
    ∀ (script : List SeqRound) (aborted : Bool) (msgs : List Part) (out : String)
      (st : SeqState),
    SpanOrdered st.events → SpansWF st.events → SpansBelow st.events st.clock →
    SpanOrdered (seqLoop registry aborted script msgs out st).2.events ∧
    SpansWF (seqLoop registry aborted script msgs out st).2.events := by
  intro script
  induction script with
  | nil =>
      intro aborted msgs out st h1 h2 h3
      rw [seqLoop_nil]
      exact ⟨h1, h2⟩
  | cons round rest ih =>
      intro aborted msgs out st h1 h2 h3
      cases aborted with
      | true =>
          rw [seqLoop_abort]
          exact ⟨h1, h2⟩
      | false =>
          rw [seqLoop_step]
          have hsn := spans_snoc st.events
            ⟨EventType.llm, "llm_" ++ toString st.llmCount, partsText msgs,
              st.clock, st.clock + 1⟩ st.clock h1 h2 h3 (Nat.le_refl _)
            (Nat.le_succ _)
          by_cases hc : (roundCalls round).isEmpty
          · rw [if_pos hc]
            exact ⟨hsn.1, hsn.2.1⟩
          · rw [if_neg hc]
            have htools := seqExecTools_inv registry (roundCalls round) []
              { st with
                llmCount := st.llmCount + 1, clock := st.clock + 2,
                events := st.events ++
                  [⟨EventType.llm, "llm_" ++ toString st.llmCount, partsText msgs,
                    st.clock, st.clock + 1⟩],
                calls := st.calls ++
                  [⟨"llm_" ++ toString st.llmCount, Signal.top⟩] }
              hsn.1 hsn.2.1 (spansBelow_mono _ _ _ hsn.2.2 (Nat.le_succ _))
            exact ih false _ _ _ htools.1 htools.2.1 htools.2.2

theorem chain_le_head : ∀ (l : List ExecutionEvent) (a : ExecutionEvent),
    SpanOrdered (a :: l) → SpansWF l → ∀ b ∈ l, a.endTime ≤ b.start := by
  intro l
  induction l with
  | nil =>
      intro a h1 h2 b hb
      simp at hb
  | cons c l ih =>
      intro a h1 h2 b hb
      have hac : a.endTime ≤ c.start := (List.chain'_cons.mp h1).1
      rcases List.mem_cons.mp hb with rfl | hb'
      · exact hac
      · have h1' : SpanOrdered (c :: l) := (List.chain'_cons'.mp h1).2
        have hwf : SpansWF l := fun e he => h2 e (List.mem_cons_of_mem _ he)
        have := ih c h1' hwf b hb'
        exact le_trans (le_trans hac (h2 c (by simp))) this

theorem spans_pairwise : ∀ (l : List ExecutionEvent),
    SpanOrdered l → SpansWF l →
    List.Pairwise (fun a b => a.endTime ≤ b.start) l := by
  intro l
  induction l with
  | nil =>
      intro h1 h2
      exact List.Pairwise.nil
  | cons a l ih =>
      intro h1 h2
      have hl : SpanOrdered l := (List.chain'_cons'.mp h1).2
      have hwf : SpansWF l := fun e he => h2 e (List.mem_cons_of_mem _ he)
      exact List.Pairwise.cons (chain_le_head l a h1 hwf) (ih hl hwf)

/-- C8: the sequential fallback executor's recorded events are strictly
serialized: for every run, any earlier event ends no later than any later
event starts (zero overlap between any two events); and the two-round one-tool
scenario yields exactly two inference events and one tool event in temporal
order inference, tool, inference. -/
theorem claim_C8 :
    (∀ (registry : ToolRegistry) (aborted : Bool) (script : List SeqRound)
        (prompt : String)
        (i j : Fin (runPromptSequentially registry aborted script
          prompt).2.events.length),
        i < j →
        ((runPromptSequentially registry aborted script prompt).2.events.get
            i).endTime ≤
          ((runPromptSequentially registry aborted script prompt).2.events.get
            j).start) ∧
    ((runPromptSequentially [⟨"dummy", Except.ok ⟨"done", [⟨some "tool"⟩]⟩⟩] false
        [⟨[⟨some "", [⟨some "dummy", some "1", []⟩]⟩]⟩, ⟨[⟨some "final", []⟩]⟩]
        "prompt").2.events.map (fun e => (e.type, e.name))) =
      [(EventType.llm, "llm_0"), (EventType.tool, "tool_dummy"),
       (EventType.llm, "llm_1")] := by
  constructor
  · intro registry aborted script prompt i j hij
    have hinv := seqLoop_inv registry script aborted [⟨some prompt⟩] ""
      ⟨0, [], [], 0⟩ (by simp [SpanOrdered]) (by intro e he; simp at he)
      (by intro e he; simp at he)
    exact List.pairwise_iff_get.mp (spans_pairwise _ hinv.1 hinv.2) i j hij
  · rfl

/-- Witness for C8: in the concrete two-round scenario the inference event
ends no later than the tool event starts. -/
theorem claim_C8_witness :
    ∃ (hi : 0 < (runPromptSequentially
        [⟨"dummy", Except.ok ⟨"done", [⟨some "tool"⟩]⟩⟩] false
        [⟨[⟨some "", [⟨some "dummy", some "1", []⟩]⟩]⟩, ⟨[⟨some "final", []⟩]⟩]
        "prompt").2.events.length)
      (hj : 1 < (runPromptSequentially
        [⟨"dummy", Except.ok ⟨"done", [⟨some "tool"⟩]⟩⟩] false
        [⟨[⟨some "", [⟨some "dummy", some "1", []⟩]⟩]⟩, ⟨[⟨some "final", []⟩]⟩]
        "prompt").2.events.length),
      ((runPromptSequentially [⟨"dummy", Except.ok ⟨"done", [⟨some "tool"⟩]⟩⟩]
        false
        [⟨[⟨some "", [⟨some "dummy", some "1", []⟩]⟩]⟩, ⟨[⟨some "final", []⟩]⟩]
        "prompt").2.events.get ⟨0, hi⟩).endTime ≤
      ((runPromptSequentially [⟨"dummy", Except.ok ⟨"done", [⟨some "tool"⟩]⟩⟩]
        false
        [⟨[⟨some "", [⟨some "dummy", some "1", []⟩]⟩]⟩, ⟨[⟨some "final", []⟩]⟩]
        "prompt").2.events.get ⟨1, hj⟩).start :=
  ⟨by decide, by decide,
    claim_C8.1 [⟨"dummy", Except.ok ⟨"done", [⟨some "tool"⟩]⟩⟩] false
      [⟨[⟨some "", [⟨some "dummy", some "1", []⟩]⟩]⟩, ⟨[⟨some "final", []⟩]⟩]
      "prompt" ⟨0, by decide⟩ ⟨1, by decide⟩ (by decide)⟩

theorem executeToolCall_mkRequest (registry : ToolRegistry) (now : Nat)
    (fc : FunctionCall) :
    executeToolCall registry (mkRequest now fc) =
      executeToolCall registry (mkRequest 0 fc) := rfl

theorem seqExecTools_parts (registry : ToolRegistry) :
    ∀ (fcs : List FunctionCall) (acc : List Part) (st : SeqState),
    (seqExecTools registry fcs acc st).1 = acc ++ toolOutputParts registry fcs := by
  intro fcs
  induction fcs with
  | nil =>
      intro acc st
      simp [seqExecTools, toolOutputParts]
  | cons fc rest ih =>
      intro acc st
      rw [seqExecTools_cons, ih]
      simp [toolOutputParts, toolOutput, executeToolCall_mkRequest registry st.clock fc]

theorem seqExecTools_llm (registry : ToolRegistry) :
    ∀ (fcs : List FunctionCall) (acc : List Part) (st : SeqState),
    (seqExecTools registry fcs acc st).2.llmCount = st.llmCount ∧
    (seqExecTools registry fcs acc st).2.events.filter
        (fun e => e.type == EventType.llm) =
      st.events.filter (fun e => e.type == EventType.llm) := by
  intro fcs
  induction fcs with
  | nil =>
      intro acc st
      exact ⟨rfl, rfl⟩
  | cons fc rest ih =>
      intro acc st
      rw [seqExecTools_cons]
      obtain ⟨hcount, hfilter⟩ := ih
        (acc ++ respParts (executeToolCall registry (mkRequest st.clock fc))) _
      refine ⟨by rw [hcount], ?_⟩
      rw [hfilter]
      simp

theorem seqLoop_refines (registry : ToolRegistry) :
    ∀ (script : List SeqRound) (msgs : List Part) (out : String) (st : SeqState),
    (match seqSpecLoop registry script msgs out with
     | some p =>
        (seqLoop registry false script msgs out st).1 = Except.ok p.1 ∧
        ((seqLoop registry false script msgs out st).2.events.filter
            (fun e => e.type == EventType.llm)).map (fun e => e.context) =
          ((st.events.filter (fun e => e.type == EventType.llm)).map
            (fun e => e.context)) ++ p.2 ∧
        (seqLoop registry false script msgs out st).2.llmCount =
          st.llmCount + p.2.length
     | none => ∃ e, (seqLoop registry false script msgs out st).1 =
        Except.error e) := by
  intro script
  induction script with
  | nil =>
      intro msgs out st
      simp only [seqSpecLoop]
      exact ⟨"no response", by rw [seqLoop_nil]⟩
  | cons round rest ih =>
      intro msgs out st
      by_cases hc : (roundCalls round).isEmpty
      · simp only [seqSpecLoop, hc, if_true]
        rw [seqLoop_step, if_pos hc]
        refine ⟨rfl, ?_, rfl⟩
        simp
      · simp only [seqSpecLoop, hc, if_false]
        have harg : (seqExecTools registry (roundCalls round) []
            { st with
              llmCount := st.llmCount + 1, clock := st.clock + 2,
              events := st.events ++
                [⟨EventType.llm, "llm_" ++ toString st.llmCount, partsText msgs,
                  st.clock, st.clock + 1⟩],
              calls := st.calls ++
                [⟨"llm_" ++ toString st.llmCount, Signal.top⟩] }).1 =
            toolOutputParts registry (roundCalls round) := by
          rw [seqExecTools_parts]
          simp
        have hihInst := ih (toolOutputParts registry (roundCalls round))
          (out ++ roundText round)
          (seqExecTools registry (roundCalls round) []
            { st with
              llmCount := st.llmCount + 1, clock := st.clock + 2,
              events := st.events ++
                [⟨EventType.llm, "llm_" ++ toString st.llmCount, partsText msgs,
                  st.clock, st.clock + 1⟩],
              calls := st.calls ++
                [⟨"llm_" ++ toString st.llmCount, Signal.top⟩] }).2
        obtain ⟨hcount, hfilter⟩ := seqExecTools_llm registry (roundCalls round) []
          { st with
            llmCount := st.llmCount + 1, clock := st.clock + 2,
            events := st.events ++
              [⟨EventType.llm, "llm_" ++ toString st.llmCount, partsText msgs,
                st.clock, st.clock + 1⟩],
            calls := st.calls ++
              [⟨"llm_" ++ toString st.llmCount, Signal.top⟩] }
        rcases hspec : seqSpecLoop registry rest
            (toolOutputParts registry (roundCalls round))
            (out ++ roundText round) with - | p
        · rw [hspec] at hihInst
          obtain ⟨e, he⟩ := hihInst
          refine ⟨e, ?_⟩
          rw [seqLoop_step, if_neg hc, harg]
          exact he
        · rw [hspec] at hihInst
          obtain ⟨hres, hevts, hllm⟩ := hihInst
          refine ⟨?_, ?_, ?_⟩
          · rw [seqLoop_step, if_neg hc, harg]
            exact hres
          · rw [seqLoop_step, if_neg hc, harg, hevts, hfilter]
            simp
          · rw [seqLoop_step, if_neg hc, harg, hllm, hcount]
            simp [Nat.add_assoc, Nat.add_comm 1 _]

/-- C9: the sequential fallback loop refines its specification: against the
spec-side execution seqSpecLoop (terminate exactly at the first inference
response requesting zero tools, return the text accumulated over all rounds,
feed each round's collected tool outputs in as the next round's input
message), the embedded runPromptSequentially returns exactly the spec's final
text, records one inference event per spec round whose contexts are exactly
the spec's round-input texts (the prompt, then each previous round's tool
output text), counts exactly that many rounds, and fails exactly when the
spec-side loop cannot complete. -/
theorem claim_C9 (registry : ToolRegistry) (script : List SeqRound)
    (prompt : String) :
    (match seqSpecLoop registry script [⟨some prompt⟩] "" with
     | some p =>
        (runPromptSequentially registry false script prompt).1 =
          Except.ok p.1 ∧
        ((runPromptSequentially registry false script prompt).2.events.filter
            (fun e => e.type == EventType.llm)).map (fun e => e.context) =
          p.2 ∧
        (runPromptSequentially registry false script prompt).2.llmCount =
          p.2.length
     | none => ∃ e, (runPromptSequentially registry false script prompt).1 =
        Except.error e) := by
  have h := seqLoop_refines registry script [⟨some prompt⟩] "" ⟨0, [], [], 0⟩
  rcases hspec : seqSpecLoop registry script [⟨some prompt⟩] "" with - | p
  · rw [hspec] at h
    exact h
  · rw [hspec] at h
    obtain ⟨hres, hevts, hllm⟩ := h
    refine ⟨hres, ?_, ?_⟩
    · simpa using hevts
    · simpa using hllm

theorem fcNodeName_id (now : Nat) (fc : FunctionCall) (i : String)
    (h : fc.id = some i) : fcNodeName now fc = "tool_" ++ i := by
  simp [fcNodeName, mkRequest, h]

theorem string_append_left_cancel (a b c : String) (h : a ++ b = a ++ c) :
    b = c := by
  have hd : a.data ++ b.data = a.data ++ c.data := congrArg String.data h
  have hbc := List.append_cancel_left hd
  cases b
  cases c
  exact congrArg String.mk hbc

theorem addToolCalls_ok (registry : ToolRegistry) (now : Nat) :
    ∀ (fcs : List FunctionCall) (s : TygentScheduler) (acc : List String),
    (∀ fc ∈ fcs, ∃ tool,
      getTool registry (fc.name.getD "unknown_tool") = some tool) →
    (∀ fc ∈ fcs, fc.id.isSome) →
    ((fcs.map (fun fc => fc.id)).Nodup) →
    (∀ fc ∈ fcs, ∀ m ∈ s.dag.nodes, m.name ≠ fcNodeName now fc) →
    ∃ s', addToolCalls registry now fcs s acc =
        Except.ok (acc ++ fcs.map (fcNodeName now), s') ∧
      s'.dag.nodes = s.dag.nodes ++ fcs.map (fcNode registry now) := by
  intro fcs
  induction fcs with
  | nil =>
      intro s acc _ _ _ _
      exact ⟨s, by simp [addToolCalls], by simp⟩
  | cons fc rest ih =>
      intro s acc htools hids hnodup hfresh
      obtain ⟨tool, hl⟩ := htools fc (by simp)
      have hlname : getTool registry (mkRequest now fc).name = some tool := hl
      have hdup : s.dag.nodes.any
          (fun m => m.name = "tool_" ++ (mkRequest now fc).callId) = false := by
        rw [List.any_eq_false]
        intro m hm
        have := hfresh fc (by simp) m hm
        simpa [fcNodeName] using this
      have hstep : s.addToolCall registry (mkRequest now fc) [] =
          (Except.ok ("tool_" ++ (mkRequest now fc).callId),
           { s with dag := ⟨s.dag.dagName, s.dag.nodes ++
              [{ name := "tool_" ++ (mkRequest now fc).callId, deps := [],
                 kind := NodeKind.toolK, toolName := (mkRequest now fc).name,
                 toolArgs := (mkRequest now fc).args,
                 toolOutcome := tool.outcome }]⟩ }) := by
        simp [TygentScheduler.addToolCall, hlname, DAG.addNode, hdup]
      have hnodupIds : fc.id ∉ rest.map (fun fc => fc.id) ∧
          (rest.map (fun fc => fc.id)).Nodup := by
        simpa [List.nodup_cons] using hnodup
      obtain ⟨i, hi⟩ := Option.isSome_iff_exists.mp (hids fc (by simp))
      have hfresh' : ∀ fc' ∈ rest,
          ∀ m ∈ ({ s with dag := ⟨s.dag.dagName, s.dag.nodes ++
              [{ name := "tool_" ++ (mkRequest now fc).callId, deps := [],
                 kind := NodeKind.toolK, toolName := (mkRequest now fc).name,
                 toolArgs := (mkRequest now fc).args,
                 toolOutcome := tool.outcome }]⟩ } :
            TygentScheduler).dag.nodes,
          m.name ≠ fcNodeName now fc' := by
        intro fc' hfc' m hm
        rcases List.mem_append.mp hm with hm' | hm'
        · exact hfresh fc' (by simp [hfc']) m hm'
        · have hmeq : m.name = "tool_" ++ (mkRequest now fc).callId := by
            simp at hm'
            rw [hm']
          rw [hmeq]
          obtain ⟨i', hi'⟩ := Option.isSome_iff_exists.mp
            (hids fc' (by simp [hfc']))
          have hne : i ≠ i' := by
            intro hii
            apply hnodupIds.1
            have : fc'.id = fc.id := by rw [hi, hi', hii]
            exact this ▸ List.mem_map_of_mem (fun fc => fc.id) hfc'
          have hcallId : (mkRequest now fc).callId = i := by
            simp [mkRequest, hi]
          rw [hcallId, fcNodeName_id now fc' i' hi']
          intro hcontra
          exact hne (string_append_left_cancel _ _ _ hcontra)
      obtain ⟨s', heq, hnodes⟩ := ih _ (acc ++ ["tool_" ++ (mkRequest now fc).callId])
        (fun fc' h' => htools fc' (by simp [h']))
        (fun fc' h' => hids fc' (by simp [h'])) hnodupIds.2 hfresh'
      refine ⟨s', ?_, ?_⟩
      · have : addToolCalls registry now (fc :: rest) s acc =
            addToolCalls registry now rest
              { s with dag := ⟨s.dag.dagName, s.dag.nodes ++
                [{ name := "tool_" ++ (mkRequest now fc).callId, deps := [],
                   kind := NodeKind.toolK, toolName := (mkRequest now fc).name,
                   toolArgs := (mkRequest now fc).args,
                   toolOutcome := tool.outcome }]⟩ }
              (acc ++ ["tool_" ++ (mkRequest now fc).callId]) := by
          simp only [addToolCalls, hstep]
        rw [this, heq]
        simp [fcNodeName]
      · rw [hnodes]
        have hnode :
            ({ name := "tool_" ++ (mkRequest now fc).callId, deps := [],
               kind := NodeKind.toolK, toolName := (mkRequest now fc).name,
               toolArgs := (mkRequest now fc).args,
               toolOutcome := tool.outcome } : DAGNode) =
              fcNode registry now fc := by
          simp [fcNode, fcNodeName, hlname, hl, mkRequest]
        rw [hnode]
        simp

theorem executeNodes_tools :
    ∀ (nodes : List DAGNode) (acc : List (String × NodeOutput)) (st : ExecState),
    (∀ n ∈ nodes, n.kind = NodeKind.toolK ∧ ∃ r, n.toolOutcome = Except.ok r) →
    ∃ results st2, executeNodes nodes acc st = (Except.ok results, st2) ∧
      st2.script = st.script ∧ st2.inferCalls = st.inferCalls := by
  intro nodes
  induction nodes with
  | nil =>
      intro acc st _
      exact ⟨acc, st, rfl, rfl, rfl⟩
  | cons n rest ih =>
      intro acc st h
      obtain ⟨hk, r, hr⟩ := h n (by simp)
      have hstep : execNode n st =
          (Except.ok (NodeOutput.toolRes r), (execToolNode n st).2) := by
        simp [execNode, hk, execToolNode_eq, hr, Except.map]
      obtain ⟨results, st2, heq, hscr, hinf⟩ :=
        ih (acc ++ [(n.name, NodeOutput.toolRes r)]) (execToolNode n st).2
          (fun m hm => h m (by simp [hm]))
      refine ⟨results, st2, ?_, ?_, ?_⟩
      · simp only [executeNodes, hstep]
        exact heq
      · rw [hscr]
        simp [execToolNode_eq]
      · rw [hinf]
        simp [execToolNode_eq]

theorem finishFollowUp_res (ctx : String) (st2 : ExecState) (rf : Response)
    (rest : List (Except String Response))
    (h : st2.script = Except.ok rf :: rest) :
    (finishFollowUp ctx st2).1 =
      Except.ok ((getResponseText rf).getD (jsToString rf)) := by
  unfold finishFollowUp
  rw [callGenerate_eq, h]

/-- C10: the Workflow Driver is total on responses lacking text: an initial
response with no tool requests and no extractable text yields the string
conversion of the raw response object; and when a tool round trip runs (every
requested tool present and succeeding, explicit pairwise-distinct call ids), a
follow-up response with no extractable text likewise yields the string
conversion of the raw follow-up response. -/
theorem claim_C10 :
    (∀ (registry : ToolRegistry) (prompt : String) (r : Response)
        (rest : List (Except String Response)),
        getFunctionCalls r = [] → getResponseText r = none →
        (runPromptWithTools registry prompt
          (initState (Except.ok r :: rest))).1 = Except.ok (jsToString r)) ∧
    (∀ (registry : ToolRegistry) (prompt : String) (r1 rf : Response)
        (rest : List (Except String Response)),
        getFunctionCalls r1 ≠ [] →
        (∀ fc ∈ getFunctionCalls r1, ∃ tool,
          getTool registry (fc.name.getD "unknown_tool") = some tool ∧
          ∃ tr, tool.outcome = Except.ok tr) →
        (∀ fc ∈ getFunctionCalls r1, fc.id.isSome) →
        (((getFunctionCalls r1).map (fun fc => fc.id)).Nodup) →
        getResponseText rf = none →
        (runPromptWithTools registry prompt
          (initState (Except.ok r1 :: Except.ok rf :: rest))).1 =
          Except.ok (jsToString rf)) := by
  constructor
  · intro registry prompt r rest hno ht
    simp [runPromptWithTools, callGenerate, takeResponse, initState, hno, ht]
  · intro registry prompt r1 rf rest hne htools hids hnodup hnotext
    have hemptyf : ¬ ((getFunctionCalls r1).isEmpty = true) := by
      intro hE
      exact hne (by simpa using hE)
    have hdrv : runPromptWithTools registry prompt
        (initState (Except.ok r1 :: Except.ok rf :: rest)) =
        runToolsPhase registry (getFunctionCalls r1)
          ⟨2, Except.ok rf :: rest, 1,
           [⟨EventType.llm, "llm_plan", prompt, 0, 1⟩],
           [⟨"llm_plan", Signal.top⟩]⟩ := by
      rw [runPromptWithTools, callGenerate_eq]
      simp [initState, hemptyf]
    rw [hdrv]
    obtain ⟨s', haddeq, hnodes⟩ := addToolCalls_ok registry 2
      (getFunctionCalls r1) TygentScheduler.init []
      (fun fc h' => (htools fc h').imp (fun tool ht' => ht'.1)) hids hnodup
      (by intro fc h' m hm; simp [TygentScheduler.init] at hm)
    have hallok : ∀ n ∈ s'.dag.nodes,
        n.kind = NodeKind.toolK ∧ ∃ r, n.toolOutcome = Except.ok r := by
      intro n hn
      rw [hnodes] at hn
      simp only [TygentScheduler.init] at hn
      obtain ⟨fc, hfc, hfcn⟩ := List.mem_map.mp (by simpa using hn)
      obtain ⟨tool, hl, tr, htr⟩ := htools fc hfc
      subst hfcn
      refine ⟨by simp [fcNode], tr, ?_⟩
      simp [fcNode, mkRequest, hl, htr]
    obtain ⟨results, st2, hrun, hscr, -⟩ :=
      executeNodes_tools s'.dag.nodes []
        ⟨2, Except.ok rf :: rest, 1,
         [⟨EventType.llm, "llm_plan", prompt, 0, 1⟩],
         [⟨"llm_plan", Signal.top⟩]⟩ hallok
    unfold runToolsPhase
    simp only [haddeq]
    simp only [TygentScheduler.run, hrun]
    rw [finishFollowUp_res _ _ rf rest (by rw [hscr]), hnotext]
    rfl

/-- Witness for C10: a toolless textless response yields "[object Object]",
and the one-tool scenario with a textless follow-up yields "[object Object]". -/
theorem claim_C10_witness :
    (runPromptWithTools [] "p" (initState [Except.ok ⟨none, []⟩])).1 =
      Except.ok (jsToString ⟨none, []⟩) ∧
    (runPromptWithTools [⟨"dummy", Except.ok ⟨"done", [⟨some "tool"⟩]⟩⟩] "p"
        (initState
          [Except.ok ⟨some "", [⟨some "dummy", some "1", []⟩]⟩,
           Except.ok ⟨none, []⟩])).1 = Except.ok (jsToString ⟨none, []⟩) :=
  ⟨claim_C10.1 [] "p" ⟨none, []⟩ [] rfl rfl,
   claim_C10.2 [⟨"dummy", Except.ok ⟨"done", [⟨some "tool"⟩]⟩⟩] "p"
     ⟨some "", [⟨some "dummy", some "1", []⟩]⟩ ⟨none, []⟩ []
     (by decide)
     (by intro fc hfc
         simp [getFunctionCalls] at hfc
         subst hfc
         exact ⟨⟨"dummy", Except.ok ⟨"done", [⟨some "tool"⟩]⟩⟩, rfl,
           ⟨"done", [⟨some "tool"⟩]⟩, rfl⟩)
     (by intro fc hfc
         simp [getFunctionCalls] at hfc
         subst hfc
         rfl)
     (by simp [getFunctionCalls])
     rfl⟩

/-- Witness for C9: in the two-round one-tool scenario the spec-side loop
yields final text "final" with round inputs "prompt" then "tool", and the
implementation returns exactly that. -/
theorem claim_C9_witness :
    (runPromptSequentially [⟨"dummy", Except.ok ⟨"done", [⟨some "tool"⟩]⟩⟩] false
        [⟨[⟨some "", [⟨some "dummy", some "1", []⟩]⟩]⟩, ⟨[⟨some "final", []⟩]⟩]
        "prompt").1 = Except.ok "final" ∧
    ((runPromptSequentially [⟨"dummy", Except.ok ⟨"done", [⟨some "tool"⟩]⟩⟩] false
        [⟨[⟨some "", [⟨some "dummy", some "1", []⟩]⟩]⟩, ⟨[⟨some "final", []⟩]⟩]
        "prompt").2.events.filter (fun e => e.type == EventType.llm)).map
      (fun e => e.context) = ["prompt", "tool"] ∧
    (runPromptSequentially [⟨"dummy", Except.ok ⟨"done", [⟨some "tool"⟩]⟩⟩] false
        [⟨[⟨some "", [⟨some "dummy", some "1", []⟩]⟩]⟩, ⟨[⟨some "final", []⟩]⟩]
        "prompt").2.llmCount = 2 := by
  have h := claim_C9 [⟨"dummy", Except.ok ⟨"done", [⟨some "tool"⟩]⟩⟩]
    [⟨[⟨some "", [⟨some "dummy", some "1", []⟩]⟩]⟩, ⟨[⟨some "final", []⟩]⟩]
    "prompt"
  simp only [show seqSpecLoop [⟨"dummy", Except.ok ⟨"done", [⟨some "tool"⟩]⟩⟩]
      [⟨[⟨some "", [⟨some "dummy", some "1", []⟩]⟩]⟩, ⟨[⟨some "final", []⟩]⟩]
      [⟨some "prompt"⟩] "" = some ("final", ["prompt", "tool"]) from rfl] at h
  exact ⟨h.1, h.2.1, h.2.2⟩

end Tygent
